import Mathlib

/-!
Verification development for the rules engine in
code/templatev1/game_logic.py (class GameLogic): a simplified Go engine
with capture, suicide, ko, pass and territory logic.

The Python state is embedded as a Lean structure; the board
(a height x width list of lists holding None / "B" / "W") is embedded as a
function from coordinates to an optional stone colour, and every method of
GameLogic is embedded as a pure function from state to state together with
the list of Qt signals it emits.  The Python attribute
`consecutivePasses`, which no method of the class ever assigns (resetGame
omits it), is embedded as an Option: `none` models the attribute being
absent, and reading it then raises AttributeError, modelled with Except.
Worklist loops (`while stack:` / `while queue:`) are embedded with an
explicit fuel argument that provably never runs out for the fuel the
entry points supply.
-/

inductive Player where
  | B : Player
  | W : Player
deriving DecidableEq, Repr

/-- Python: `opponent = "W" if self.currentPlayer == "B" else "B"`. -/
def opponentOf : Player → Player
  | .B => .W
  | .W => .B

/-- A board cell: Python None / "B" / "W". -/
abbrev Cell := Option Player

/-- `boardArray`: read with `b r c`, `0 ≤ r < height`, `0 ≤ c < width`. -/
abbrev Board := Nat → Nat → Cell

/-- Python `self.boardArray[row][col] = v`. -/
def setCell (b : Board) (r c : Nat) (v : Cell) : Board :=
  fun r' c' => if r' = r ∧ c' = c then v else b r' c'

def emptyBoard : Board := fun _ _ => none

abbrev Coord := Nat × Nat

/-- The Qt signals of GameLogic, recorded as emitted domain events. -/
inductive Event where
  | currentPlayerChanged (color : String)
  | capturesUpdated (blackCaptures whiteCaptures : Nat)
  | territoryUpdated (blackTerritory whiteTerritory : Nat)
  | gameOverMsg (msg : String)
deriving DecidableEq, Repr

/-- A Python runtime error escaping an engine method. -/
inductive PyErr where
  | attributeError (name : String)
deriving DecidableEq, Repr

/-- The mutable attributes of a GameLogic instance. -/
structure GameState where
  width : Nat
  height : Nat
  boardArray : Board
  currentPlayer : Player
  blackCaptures : Nat
  whiteCaptures : Nat
  blackTerritory : Nat
  whiteTerritory : Nat
  gameOver : Bool
  previousBoardStates : List Board
  consecutivePasses : Option Nat

def playerName : Player → String
  | .B => "Black"
  | .W => "White"

/-- `_emitInitialSignals`. -/
def emitInitialSignals (s : GameState) : List Event :=
  [.currentPlayerChanged "Black",
   .capturesUpdated s.blackCaptures s.whiteCaptures,
   .territoryUpdated s.blackTerritory s.whiteTerritory]

/-- `resetGame`: note that `consecutivePasses` is left untouched. -/
def resetGame (s : GameState) : GameState × List Event :=
  let s1 : GameState :=
    { s with boardArray := emptyBoard, currentPlayer := .B,
             blackCaptures := 0, whiteCaptures := 0,
             blackTerritory := 0, whiteTerritory := 0,
             gameOver := false, previousBoardStates := [] }
  (s1, emitInitialSignals s1)

/-- `GameLogic.__init__(width, height)`: store the sizes, then resetGame.
No attribute named consecutivePasses is ever created. -/
def initState (width height : Nat) : GameState :=
  (resetGame
    { width := width, height := height, boardArray := emptyBoard,
      currentPlayer := .B, blackCaptures := 0, whiteCaptures := 0,
      blackTerritory := 0, whiteTerritory := 0, gameOver := false,
      previousBoardStates := [], consecutivePasses := none }).1

/-- `_switchPlayer`. -/
def switchPlayer (s : GameState) : GameState × List Event :=
  match s.currentPlayer with
  | .B => ({ s with currentPlayer := .W }, [.currentPlayerChanged "White"])
  | .W => ({ s with currentPlayer := .B }, [.currentPlayerChanged "Black"])

/-- The neighbour list `[(r-1, c), (r+1, c), (r, c-1), (r, c+1)]`,
formed over the integers as in Python. -/
def nbrsInt (p : Coord) : List (Int × Int) :=
  [((p.1 : Int) - 1, (p.2 : Int)), ((p.1 : Int) + 1, (p.2 : Int)),
   ((p.1 : Int), (p.2 : Int) - 1), ((p.1 : Int), (p.2 : Int) + 1)]

/-- Python `0 <= r < height and 0 <= c < width` on integers. -/
def inBoundsI (height width : Nat) (r c : Int) : Bool :=
  decide (0 ≤ r ∧ r < (height : Int) ∧ 0 ≤ c ∧ c < (width : Int))

/-- One pass over the four neighbours of a popped cell in
`_get_group_and_liberties`; the accumulator is
(liberties, visited, stack). -/
def groupNbrStep (height width : Nat) (b : Board) (color : Player) (p : Coord)
    (acc : Nat × Finset Coord × List Coord) : Nat × Finset Coord × List Coord :=
  (nbrsInt p).foldl
    (fun acc nb =>
      if inBoundsI height width nb.1 nb.2 then
        let q : Coord := (nb.1.toNat, nb.2.toNat)
        if b q.1 q.2 = none then (acc.1 + 1, acc.2.1, acc.2.2)
        else if b q.1 q.2 = some color ∧ q ∉ acc.2.1 then
          (acc.1, insert q acc.2.1, q :: acc.2.2)
        else acc
      else acc)
    acc

/-- The `while stack:` loop of `_get_group_and_liberties`.  The stack top
is the list head (Python pushes/pops at the list end; only the LIFO
discipline is observable).  Returns (group, liberties). -/
def groupLoop (height width : Nat) (b : Board) (color : Player) :
    Nat → List Coord → Finset Coord → List Coord → Nat → List Coord × Nat
  | 0, _, _, group, libs => (group, libs)
  | _ + 1, [], _, group, libs => (group, libs)
  | fuel + 1, p :: rest, visited, group, libs =>
      let acc := groupNbrStep height width b color p (libs, visited, rest)
      groupLoop height width b color fuel acc.2.2 acc.2.1 (group ++ [p]) acc.1

/-- `_get_group_and_liberties(start_row, start_col, color)`. -/
def getGroupAndLiberties (height width : Nat) (b : Board)
    (startRow startCol : Nat) (color : Player) : List Coord × Nat :=
  groupLoop height width b color (height * width + 1)
    [(startRow, startCol)] {(startRow, startCol)} [] 0

/-- Row-major cell enumeration
`for r in range(height): for c in range(width):`. -/
def cellList (height width : Nat) : List Coord :=
  (List.range height).flatMap fun r => (List.range width).map fun c => (r, c)

/-- Clearing every cell of a captured group:
`for (gr, gc) in group: self.boardArray[gr][gc] = None`. -/
def removeGroup (b : Board) (group : List Coord) : Board :=
  group.foldl (fun b' q => setCell b' q.1 q.2 none) b

/-- The scan loop of `_captureOpponents`; the accumulator carries the
(evolving) board, the visited set and the captured count. -/
def captureScan (height width : Nat) (opponent : Player) :
    List Coord → Board → Finset Coord → Nat → Board × Nat
  | [], b, _, captured => (b, captured)
  | p :: rest, b, visited, captured =>
      if b p.1 p.2 = some opponent ∧ p ∉ visited then
        let gl := getGroupAndLiberties height width b p.1 p.2 opponent
        let visited2 := visited ∪ gl.1.toFinset
        if gl.2 = 0 then
          captureScan height width opponent rest (removeGroup b gl.1) visited2
            (captured + gl.1.length)
        else captureScan height width opponent rest b visited2 captured
      else captureScan height width opponent rest b visited captured

/-- `_captureOpponents`: scan, then (if anything was captured) increment
the mover's capture counter and emit capturesUpdated.  Returns the new
state, the captured count, and the emitted events. -/
def captureOpponents (s : GameState) : GameState × Nat × List Event :=
  let opponent := opponentOf s.currentPlayer
  let res := captureScan s.height s.width opponent (cellList s.height s.width)
    s.boardArray ∅ 0
  let s1 := { s with boardArray := res.1 }
  if res.2 > 0 then
    let s2 :=
      match s1.currentPlayer with
      | .B => { s1 with blackCaptures := s1.blackCaptures + res.2 }
      | .W => { s1 with whiteCaptures := s1.whiteCaptures + res.2 }
    (s2, res.2, [.capturesUpdated s2.blackCaptures s2.whiteCaptures])
  else (s1, res.2, [])

/-- Cell-by-cell grid comparison used by `_isKO`. -/
def boardsEqOn (height width : Nat) (a b : Board) : Bool :=
  (List.range height).all fun r =>
    (List.range width).all fun c => decide (a r c = b r c)

/-- `_isKO`: compare the current board with `previousBoardStates[-1]`. -/
def isKO (s : GameState) : Bool :=
  if s.previousBoardStates.length < 1 then false
  else
    match s.previousBoardStates.getLast? with
    | none => false
    | some lastBoard => boardsEqOn s.height s.width s.boardArray lastBoard

/-- `_updateTerritory`: zero both territories and emit. -/
def updateTerritory (s : GameState) : GameState × List Event :=
  let s1 := { s with blackTerritory := 0, whiteTerritory := 0 }
  (s1, [.territoryUpdated s1.blackTerritory s1.whiteTerritory])

/-- handleMove lines 75-79: append the pre-move board to
`previousBoardStates` for the ko check, then place the mover's stone. -/
def placedState (s : GameState) (r c : Nat) : GameState :=
  { s with previousBoardStates := s.previousBoardStates ++ [s.boardArray],
           boardArray := setCell s.boardArray r c (some s.currentPlayer) }

/-- The state after `capturedStones = self._captureOpponents()`. -/
def afterCaptures (s : GameState) (r c : Nat) : GameState :=
  (captureOpponents (placedState s r c)).1

/-- The captured-stone count returned by `_captureOpponents`. -/
def capturedCount (s : GameState) (r c : Nat) : Nat :=
  (captureOpponents (placedState s r c)).2.1

/-- handleMove line 85: the mover's own resulting group. -/
def moverGroup (s : GameState) (r c : Nat) : List Coord :=
  (getGroupAndLiberties (afterCaptures s r c).height (afterCaptures s r c).width
    (afterCaptures s r c).boardArray r c (afterCaptures s r c).currentPlayer).1

/-- handleMove line 85: the liberty count of the mover's own group. -/
def moverLiberties (s : GameState) (r c : Nat) : Nat :=
  (getGroupAndLiberties (afterCaptures s r c).height (afterCaptures s r c).width
    (afterCaptures s r c).boardArray r c (afterCaptures s r c).currentPlayer).2

/-- `handleMove(row, col)`.  Python returns None on every path; the
observable outcome is the state mutation plus the emitted signals, which
this embedding returns. -/
def handleMove (s : GameState) (row col : Int) : GameState × List Event :=
  if s.gameOver then (s, [])
  else if ¬ (0 ≤ row ∧ row < (s.height : Int) ∧ 0 ≤ col ∧ col < (s.width : Int)) then
    (s, [])
  else
    let r := row.toNat
    let c := col.toNat
    if (s.boardArray r c).isSome then (s, [])
    else
      let s3 := afterCaptures s r c
      let capturedStones := capturedCount s r c
      let capEvents := (captureOpponents (placedState s r c)).2.2
      if moverLiberties s r c = 0 ∧ capturedStones = 0 then
        ({ s3 with boardArray := removeGroup s3.boardArray (moverGroup s r c) }, capEvents)
      else if isKO s3 then
        ({ s3 with boardArray := setCell s3.boardArray r c none,
                   previousBoardStates := s3.previousBoardStates.dropLast }, capEvents)
      else
        let s4 :=
          if capturedStones > 0 then
            match s3.currentPlayer with
            | .B => { s3 with blackCaptures := s3.blackCaptures + capturedStones }
            | .W => { s3 with whiteCaptures := s3.whiteCaptures + capturedStones }
          else s3
        let ev4 :=
          if capturedStones > 0 then
            [Event.capturesUpdated s4.blackCaptures s4.whiteCaptures]
          else []
        let ut := updateTerritory s4
        let sw := switchPlayer ut.1
        (sw.1, capEvents ++ ev4 ++ ut.2 ++ sw.2)

/-- Handling of one neighbour candidate in `_explore_empty_region`: an
unvisited empty in-bounds neighbour is enqueued and marked visited, an
unvisited stone is added to the bordering-colour set (embedded as the two
booleans sawBlack / sawWhite). -/
def exploreCellStep (height width : Nat) (b : Board)
    (acc : List Coord × Finset Coord × Bool × Bool) (nb : Int × Int) :
    List Coord × Finset Coord × Bool × Bool :=
  if inBoundsI height width nb.1 nb.2 then
    let q : Coord := (nb.1.toNat, nb.2.toNat)
    if q ∉ acc.2.1 then
      if b q.1 q.2 = none then
        (acc.1 ++ [q], insert q acc.2.1, acc.2.2.1, acc.2.2.2)
      else
        (acc.1, acc.2.1, acc.2.2.1 || decide (b q.1 q.2 = some Player.B),
         acc.2.2.2 || decide (b q.1 q.2 = some Player.W))
    else acc
  else acc

/-- One pass over the four neighbours of a dequeued cell in
`_explore_empty_region`; the accumulator is
(queue, visited, sawBlack, sawWhite). -/
def exploreNbrStep (height width : Nat) (b : Board) (p : Coord)
    (acc : List Coord × Finset Coord × Bool × Bool) :
    List Coord × Finset Coord × Bool × Bool :=
  (nbrsInt p).foldl (exploreCellStep height width b) acc

/-- The `while queue:` loop of `_explore_empty_region` (FIFO).
Returns (region, sawBlack, sawWhite, visited). -/
def exploreLoop (height width : Nat) (b : Board) :
    Nat → List Coord → List Coord → Finset Coord → Bool → Bool →
      List Coord × Bool × Bool × Finset Coord
  | 0, _, region, visited, sawB, sawW => (region, sawB, sawW, visited)
  | _ + 1, [], region, visited, sawB, sawW => (region, sawB, sawW, visited)
  | fuel + 1, p :: rest, region, visited, sawB, sawW =>
      let acc := exploreNbrStep height width b p (rest, visited, sawB, sawW)
      exploreLoop height width b fuel acc.1 (region ++ [p]) acc.2.1
        acc.2.2.1 acc.2.2.2

/-- `_explore_empty_region(start_row, start_col, visited)`. -/
def exploreEmptyRegion (height width : Nat) (b : Board)
    (startRow startCol : Nat) (visited : Finset Coord) :
    List Coord × Bool × Bool × Finset Coord :=
  exploreLoop height width b (height * width + 1) [(startRow, startCol)] []
    (insert (startRow, startCol) visited) false false

/-- The scan loop of `_computeTerritory`; the accumulator carries the
shared visited set and both territory totals. -/
def territoryScan (height width : Nat) (b : Board) :
    List Coord → Finset Coord → Nat → Nat → Nat × Nat
  | [], _, bt, wt => (bt, wt)
  | p :: rest, visited, bt, wt =>
      if b p.1 p.2 = none ∧ p ∉ visited then
        let er := exploreEmptyRegion height width b p.1 p.2 visited
        if er.2.1 = true ∧ er.2.2.1 = false then
          territoryScan height width b rest er.2.2.2 (bt + er.1.length) wt
        else if er.2.2.1 = true ∧ er.2.1 = false then
          territoryScan height width b rest er.2.2.2 bt (wt + er.1.length)
        else territoryScan height width b rest er.2.2.2 bt wt
      else territoryScan height width b rest visited bt wt

/-- The pure core of `_computeTerritory`:
(blackTerritory, whiteTerritory). -/
def computeTerritoryPair (height width : Nat) (b : Board) : Nat × Nat :=
  territoryScan height width b (cellList height width) ∅ 0 0

/-- `_computeTerritory`: store both totals and emit territoryUpdated. -/
def computeTerritory (s : GameState) : GameState × List Event :=
  let t := computeTerritoryPair s.height s.width s.boardArray
  let s1 := { s with blackTerritory := t.1, whiteTerritory := t.2 }
  (s1, [.territoryUpdated t.1 t.2])

/-- The message built by `_emitFinalResult`. -/
def finalResultMessage (s : GameState) : String :=
  let blackScore := s.blackTerritory + s.blackCaptures
  let whiteScore := s.whiteTerritory + s.whiteCaptures
  if blackScore > whiteScore then
    "Game Over! Black wins (" ++ toString blackScore ++ " vs " ++
      toString whiteScore ++ ")"
  else if whiteScore > blackScore then
    "Game Over! White wins (" ++ toString whiteScore ++ " vs " ++
      toString blackScore ++ ")"
  else
    "Game Over! It\x27s a tie (" ++ toString blackScore ++ " - " ++
      toString whiteScore ++ ")"

/-- `passMove`.  Reading the never-assigned attribute `consecutivePasses`
raises AttributeError, modelled by the error case. -/
def passMove (s : GameState) : Except PyErr (GameState × List Event) :=
  if s.gameOver then .ok (s, [])
  else
    match s.consecutivePasses with
    | none => .error (.attributeError "consecutivePasses")
    | some n =>
        let s1 := { s with consecutivePasses := some (n + 1) }
        if n + 1 ≥ 2 then
          let s2 := { s1 with gameOver := true }
          let ct := computeTerritory s2
          .ok (ct.1, ct.2 ++ [.gameOverMsg (finalResultMessage ct.1)])
        else
          let sw := switchPlayer s1
          .ok (sw.1, sw.2)

/-- A command issued by the boundary layer. -/
inductive Cmd where
  | move (row col : Int)
  | passCmd
  | reset
deriving DecidableEq, Repr

def runCmd (s : GameState) : Cmd → Except PyErr (GameState × List Event)
  | .move row col => .ok (handleMove s row col)
  | .passCmd => passMove s
  | .reset => .ok (resetGame s)

/-- Run a command sequence; a raised exception aborts the run. -/
def runCmds (s : GameState) : List Cmd → Except PyErr GameState
  | [] => .ok s
  | cmd :: rest =>
      match runCmd s cmd with
      | .error e => .error e
      | .ok res => runCmds res.1 rest

/-- Run a move list (each accepted or silently rejected, as in Python). -/
def runMoves (s : GameState) : List (Int × Int) → GameState
  | [] => s
  | m :: rest => runMoves (handleMove s m.1 m.2).1 rest

/-! ## Specification-side notions for territory scoring

These define, directly from the glossary of the design document, what a
maximal 4-connected empty region is and which colours border it; they are
used only to state and prove the correctness of `computeTerritoryPair`. -/

/-- 4-directional adjacency of two coordinates. -/
def adjCoord (p q : Coord) : Prop :=
  (p.1 = q.1 ∧ (p.2 + 1 = q.2 ∨ q.2 + 1 = p.2)) ∨
  (p.2 = q.2 ∧ (p.1 + 1 = q.1 ∨ q.1 + 1 = p.1))

/-- The coordinate lies on the board. -/
def inGrid (height width : Nat) (p : Coord) : Prop :=
  p.1 < height ∧ p.2 < width

/-- One step between two adjacent empty in-bounds cells. -/
def emptyStep (height width : Nat) (b : Board) (p q : Coord) : Prop :=
  inGrid height width p ∧ inGrid height width q ∧
  b p.1 p.2 = none ∧ b q.1 q.2 = none ∧ adjCoord p q

/-- `q` lies in the maximal 4-connected empty region of `p`. -/
def reaches (height width : Nat) (b : Board) : Coord → Coord → Prop :=
  Relation.ReflTransGen (emptyStep height width b)

/-- The empty region of `p` has a cell orthogonally adjacent to an
in-bounds stone of colour `col`. -/
def regionBorders (height width : Nat) (b : Board) (p : Coord) (col : Player) : Prop :=
  ∃ q x, reaches height width b p q ∧ inGrid height width x ∧ adjCoord q x ∧
    b x.1 x.2 = some col

/-- `p` is an empty cell whose region is bordered by `col` alone, so it
counts toward the territory of `col`. -/
def territoryCell (height width : Nat) (b : Board) (col : Player) (p : Coord) : Prop :=
  inGrid height width p ∧ b p.1 p.2 = none ∧
  regionBorders height width b p col ∧
  ¬ regionBorders height width b p (opponentOf col)

/-! ## Claim theorems: concrete executions -/

/-- Claim C1 (evidence of the code bug): on a 1x3 board, Black captures a
single White stone (the only White stone on the board disappears, k = 1),
the move is accepted, yet blackCaptures rises by 2, because
`_captureOpponents` increments the mover's counter and `handleMove`
increments it again with the same total; whiteCaptures is unchanged. -/
theorem claim_C1_capture_counter_double_increment :
    (runMoves (initState 3 1) [(0, 0), (0, 2)]).boardArray 0 2 = some Player.W ∧
    (runMoves (initState 3 1) [(0, 0), (0, 2)]).blackCaptures = 0 ∧
    (runMoves (initState 3 1) [(0, 0), (0, 2), (0, 1)]).boardArray 0 2 = none ∧
    (runMoves (initState 3 1) [(0, 0), (0, 2), (0, 1)]).boardArray 0 0 = some Player.B ∧
    (runMoves (initState 3 1) [(0, 0), (0, 2), (0, 1)]).boardArray 0 1 = some Player.B ∧
    (runMoves (initState 3 1) [(0, 0), (0, 2), (0, 1)]).currentPlayer = Player.W ∧
    (runMoves (initState 3 1) [(0, 0), (0, 2), (0, 1)]).blackCaptures = 2 ∧
    (runMoves (initState 3 1) [(0, 0), (0, 2), (0, 1)]).whiteCaptures = 0 := by
  decide

/-- Claim C3 (evidence of the code bug): a classic ko.  After eight
placements on a 3x4 board, Black captures the White stone at (1,1); White
then recaptures at (1,1), byte-for-byte recreating the position that
existed immediately before Black's capture — exactly the position simple
ko forbids — and the engine accepts the move: the turn switches to Black
and the history keeps growing.  `_isKO` compares the post-move board with
the snapshot taken at the start of the same move, which always differs at
the cell just played, so the ko check never rejects anything. -/
theorem claim_C3_ko_recreation_accepted :
    (runMoves (initState 4 3)
      [(0, 1), (0, 2), (1, 0), (1, 3), (2, 1), (2, 2), (0, 0), (1, 1), (1, 2)]).boardArray 1 1
        = none ∧
    (runMoves (initState 4 3)
      [(0, 1), (0, 2), (1, 0), (1, 3), (2, 1), (2, 2), (0, 0), (1, 1), (1, 2)]).currentPlayer
        = Player.W ∧
    boardsEqOn 3 4
      (runMoves (initState 4 3)
        [(0, 1), (0, 2), (1, 0), (1, 3), (2, 1), (2, 2), (0, 0), (1, 1), (1, 2), (1, 1)]).boardArray
      (runMoves (initState 4 3)
        [(0, 1), (0, 2), (1, 0), (1, 3), (2, 1), (2, 2), (0, 0), (1, 1)]).boardArray = true ∧
    (runMoves (initState 4 3)
      [(0, 1), (0, 2), (1, 0), (1, 3), (2, 1), (2, 2), (0, 0), (1, 1), (1, 2), (1, 1)]).currentPlayer
        = Player.B ∧
    (runMoves (initState 4 3)
      [(0, 1), (0, 2), (1, 0), (1, 3), (2, 1), (2, 2), (0, 0), (1, 1), (1, 2), (1, 1)]).previousBoardStates.length
        = 10 := by
  decide

/-- Claim C4 (evidence of the code bug): from a freshly reset game the
very first pass raises AttributeError, because `resetGame` never
initializes `consecutivePasses` and `passMove` executes
`self.consecutivePasses += 1` on the missing attribute. -/
theorem claim_C4_passMove_raises_attributeError :
    runCmds (initState 3 3) [Cmd.reset, Cmd.passCmd] =
      Except.error (PyErr.attributeError "consecutivePasses") := rfl

/-- Claim C5 (evidence of the code bug): `consecutivePasses` is not 0 in
the initial state (the attribute does not exist), an accepted placement
does not reset it, and consequently, from any state in which it held the
value 1, a single further pass ends the game even though a placement
happened in between. -/
theorem claim_C5_consecutivePasses_broken :
    (initState 2 2).consecutivePasses = none ∧
    (let s : GameState := { initState 2 2 with consecutivePasses := some 1 }
     let s1 := (handleMove s 0 0).1
     s1.consecutivePasses = some 1 ∧ s1.currentPlayer = Player.W ∧
     ∃ r, passMove s1 = Except.ok r ∧ r.1.gameOver = true) :=
  ⟨rfl, rfl, rfl, ⟨_, rfl, rfl⟩⟩

/-- Claim C6: the game-over half of the claim holds — `passMove` with
`gameOver` already true is a strict no-op — but on every reachable
non-terminated state (where `consecutivePasses` was never created) the
call raises AttributeError instead of incrementing the counter. -/
theorem claim_C6_pass_raises_instead_of_incrementing :
    passMove (initState 4 4) = Except.error (PyErr.attributeError "consecutivePasses") ∧
    ∀ s : GameState, s.gameOver = true → passMove s = Except.ok (s, []) := by
  refine ⟨rfl, fun s h => ?_⟩
  simp [passMove, h]

/-- Witness for claim C6's theorem at a concrete terminated state. -/
theorem claim_C6_witness :
    passMove { initState 4 4 with gameOver := true } =
      Except.ok ({ initState 4 4 with gameOver := true }, []) :=
  claim_C6_pass_raises_instead_of_incrementing.2 _ rfl

/-! ## Basic lemmas about the board and the group search -/

theorem setCell_self (b : Board) (r c : Nat) (v : Cell) :
    setCell b r c v r c = v := by
  simp [setCell]

theorem setCell_ne (b : Board) (r c r' c' : Nat) (v : Cell)
    (h : ¬ (r' = r ∧ c' = c)) : setCell b r c v r' c' = b r' c' := by
  simp [setCell, h]

theorem removeGroup_apply (g : List Coord) (b : Board) (r c : Nat) :
    removeGroup b g r c = if (r, c) ∈ g then none else b r c := by
  induction g generalizing b with
  | nil => simp [removeGroup]
  | cons q rest ih =>
      show removeGroup (setCell b q.1 q.2 none) rest r c = _
      rw [ih]
      by_cases hmem : (r, c) ∈ rest
      · simp [hmem]
      · by_cases hq : (r, c) = q
        · have : r = q.1 ∧ c = q.2 := by
            constructor
            · exact congrArg Prod.fst hq
            · exact congrArg Prod.snd hq
          simp [hmem, hq, setCell, this]
        · have : ¬ (r = q.1 ∧ c = q.2) := by
            intro hc
            exact hq (Prod.ext hc.1 hc.2)
          simp [hmem, hq, setCell_ne _ _ _ _ _ _ this]

theorem groupLoop_cons (height width : Nat) (b : Board) (color : Player)
    (fuel : Nat) (p : Coord) (rest : List Coord) (visited : Finset Coord)
    (group : List Coord) (libs : Nat) :
    groupLoop height width b color (fuel + 1) (p :: rest) visited group libs =
      groupLoop height width b color fuel
        (groupNbrStep height width b color p (libs, visited, rest)).2.2
        (groupNbrStep height width b color p (libs, visited, rest)).2.1
        (group ++ [p])
        (groupNbrStep height width b color p (libs, visited, rest)).1 := rfl

theorem groupLoop_prefix (height width : Nat) (b : Board) (color : Player)
    (fuel : Nat) :
    ∀ (stack : List Coord) (visited : Finset Coord) (group : List Coord)
      (libs : Nat),
      ∃ suffix,
        (groupLoop height width b color fuel stack visited group libs).1 =
          group ++ suffix := by
  induction fuel with
  | zero =>
      intro stack visited group libs
      exact ⟨[], by simp [groupLoop]⟩
  | succ n ih =>
      intro stack visited group libs
      cases stack with
      | nil => exact ⟨[], by simp [groupLoop]⟩
      | cons p rest =>
          obtain ⟨suf, hsuf⟩ := ih
            (groupNbrStep height width b color p (libs, visited, rest)).2.2
            (groupNbrStep height width b color p (libs, visited, rest)).2.1
            (group ++ [p])
            (groupNbrStep height width b color p (libs, visited, rest)).1
          refine ⟨p :: suf, ?_⟩
          rw [groupLoop_cons, hsuf]
          simp

/-- The starting cell is always a member of the computed group. -/
theorem getGroupAndLiberties_start_mem (height width : Nat) (b : Board)
    (r c : Nat) (color : Player) :
    (r, c) ∈ (getGroupAndLiberties height width b r c color).1 := by
  unfold getGroupAndLiberties
  obtain ⟨suf, hsuf⟩ := groupLoop_prefix height width b color (height * width)
    (groupNbrStep height width b color (r, c) (0, {(r, c)}, [])).2.2
    (groupNbrStep height width b color (r, c) (0, {(r, c)}, [])).2.1
    ([] ++ [(r, c)])
    (groupNbrStep height width b color (r, c) (0, {(r, c)}, [])).1
  rw [groupLoop_cons, hsuf]
  simp

/-- The fold over a popped cell's neighbours only pushes cells of the
searched colour. -/
theorem groupNbrStep_stack_sound (height width : Nat) (b : Board)
    (color : Player) (p : Coord) (acc : Nat × Finset Coord × List Coord)
    (P : Coord → Prop)
    (hcolor : ∀ q : Coord, b q.1 q.2 = some color → P q)
    (hacc : ∀ q ∈ acc.2.2, P q) :
    ∀ q ∈ (groupNbrStep height width b color p acc).2.2, P q := by
  unfold groupNbrStep
  generalize nbrsInt p = L
  induction L generalizing acc with
  | nil => exact hacc
  | cons nb rest ih =>
      simp only [List.foldl_cons]
      apply ih
      by_cases h1 : inBoundsI height width nb.1 nb.2
      · by_cases h2 : b nb.1.toNat nb.2.toNat = none
        · simpa [h1, h2] using hacc
        · by_cases h3 : b nb.1.toNat nb.2.toNat = some color ∧
              (nb.1.toNat, nb.2.toNat) ∉ acc.2.1
          · simp only [h1, if_true, h2, if_false, h3, if_true]
            intro q hq
            rcases List.mem_cons.mp hq with hq | hq
            · exact hq ▸ hcolor _ h3.1
            · exact hacc q hq
          · simpa [h1, h2, h3] using hacc
      · simpa [h1] using hacc

/-- Every cell the group search returns holds the searched colour,
provided the whole stack does. -/
theorem groupLoop_color (height width : Nat) (b : Board) (color : Player)
    (fuel : Nat) :
    ∀ (stack : List Coord) (visited : Finset Coord) (group : List Coord)
      (libs : Nat),
      (∀ p ∈ stack, b p.1 p.2 = some color) →
      (∀ p ∈ group, b p.1 p.2 = some color) →
      ∀ p ∈ (groupLoop height width b color fuel stack visited group libs).1,
        b p.1 p.2 = some color := by
  induction fuel with
  | zero =>
      intro stack visited group libs _ hgroup
      simpa [groupLoop] using hgroup
  | succ n ih =>
      intro stack visited group libs hstack hgroup
      cases stack with
      | nil => simpa [groupLoop] using hgroup
      | cons p rest =>
          rw [groupLoop_cons]
          apply ih
          · exact groupNbrStep_stack_sound height width b color p
              (libs, visited, rest) _ (fun q hq => hq)
              (fun q hq => hstack q (List.mem_cons_of_mem p hq))
          · intro q hq
            rcases List.mem_append.mp hq with hq | hq
            · exact hgroup q hq
            · rw [List.mem_singleton.mp hq]
              exact hstack p (List.mem_cons_self p rest)

/-- `_get_group_and_liberties` started on a stone of `color` returns only
cells of that colour. -/
theorem getGroupAndLiberties_color (height width : Nat) (b : Board)
    (r c : Nat) (color : Player) (h : b r c = some color) :
    ∀ p ∈ (getGroupAndLiberties height width b r c color).1,
      b p.1 p.2 = some color := by
  unfold getGroupAndLiberties
  apply groupLoop_color
  · intro p hp
    rcases List.mem_singleton.mp hp with rfl
    exact h
  · intro p hp
    exact absurd hp (List.not_mem_nil p)

/-! ## Lemmas about capture resolution -/

/-- Unfolding of one scan step of `_captureOpponents`. -/
theorem captureScan_cons (height width : Nat) (opponent : Player) (p : Coord)
    (rest : List Coord) (b : Board) (visited : Finset Coord) (captured : Nat) :
    captureScan height width opponent (p :: rest) b visited captured =
      if b p.1 p.2 = some opponent ∧ p ∉ visited then
        (if (getGroupAndLiberties height width b p.1 p.2 opponent).2 = 0 then
          captureScan height width opponent rest
            (removeGroup b (getGroupAndLiberties height width b p.1 p.2 opponent).1)
            (visited ∪ (getGroupAndLiberties height width b p.1 p.2 opponent).1.toFinset)
            (captured + (getGroupAndLiberties height width b p.1 p.2 opponent).1.length)
        else
          captureScan height width opponent rest b
            (visited ∪ (getGroupAndLiberties height width b p.1 p.2 opponent).1.toFinset)
            captured)
      else captureScan height width opponent rest b visited captured := rfl

theorem captureScan_mono (height width : Nat) (opponent : Player)
    (cells : List Coord) :
    ∀ (b : Board) (visited : Finset Coord) (captured : Nat),
      captured ≤ (captureScan height width opponent cells b visited captured).2 := by
  induction cells with
  | nil => intro b visited captured; simp [captureScan]
  | cons p rest ih =>
      intro b visited captured
      rw [captureScan_cons]
      by_cases h1 : b p.1 p.2 = some opponent ∧ p ∉ visited
      · rw [if_pos h1]
        by_cases h2 :
            (getGroupAndLiberties height width b p.1 p.2 opponent).2 = 0
        · rw [if_pos h2]
          exact le_trans (Nat.le_add_right _ _) (ih _ _ _)
        · rw [if_neg h2]
          exact ih _ _ _
      · rw [if_neg h1]
        exact ih _ _ _

/-- If the scan reports nothing captured, the board is untouched. -/
theorem captureScan_zero_board (height width : Nat) (opponent : Player)
    (cells : List Coord) :
    ∀ (b : Board) (visited : Finset Coord) (captured : Nat),
      (captureScan height width opponent cells b visited captured).2 = captured →
      (captureScan height width opponent cells b visited captured).1 = b := by
  induction cells with
  | nil => intro b visited captured _; simp [captureScan]
  | cons p rest ih =>
      intro b visited captured h
      rw [captureScan_cons] at h ⊢
      by_cases h1 : b p.1 p.2 = some opponent ∧ p ∉ visited
      · rw [if_pos h1] at h ⊢
        by_cases h2 :
            (getGroupAndLiberties height width b p.1 p.2 opponent).2 = 0
        · rw [if_pos h2] at h ⊢
          have hmono := captureScan_mono height width opponent rest
            (removeGroup b (getGroupAndLiberties height width b p.1 p.2 opponent).1)
            (visited ∪ (getGroupAndLiberties height width b p.1 p.2 opponent).1.toFinset)
            (captured + (getGroupAndLiberties height width b p.1 p.2 opponent).1.length)
          rw [h] at hmono
          have hlen :
              (getGroupAndLiberties height width b p.1 p.2 opponent).1.length = 0 := by
            omega
          have hnil :
              (getGroupAndLiberties height width b p.1 p.2 opponent).1 = [] :=
            List.length_eq_zero.mp hlen
          rw [hnil] at h ⊢
          rw [show removeGroup b ([] : List Coord) = b from rfl] at h ⊢
          rw [show captured + ([] : List Coord).length = captured from rfl] at h ⊢
          exact ih b _ captured h
        · rw [if_neg h2] at h ⊢
          exact ih b _ captured h
      · rw [if_neg h1] at h ⊢
        exact ih b visited captured h

/-- The scan never rewrites a cell that does not hold the opponent's
colour (so mover stones and empty cells survive untouched). -/
theorem captureScan_frame (height width : Nat) (opponent : Player)
    (cells : List Coord) :
    ∀ (b : Board) (visited : Finset Coord) (captured : Nat) (r c : Nat),
      b r c ≠ some opponent →
      (captureScan height width opponent cells b visited captured).1 r c = b r c := by
  induction cells with
  | nil => intro b visited captured r c _; simp [captureScan]
  | cons p rest ih =>
      intro b visited captured r c hrc
      rw [captureScan_cons]
      by_cases h1 : b p.1 p.2 = some opponent ∧ p ∉ visited
      · rw [if_pos h1]
        by_cases h2 :
            (getGroupAndLiberties height width b p.1 p.2 opponent).2 = 0
        · rw [if_pos h2]
          have hgrp := getGroupAndLiberties_color height width b p.1 p.2
            opponent h1.1
          have hnot :
              (r, c) ∉ (getGroupAndLiberties height width b p.1 p.2 opponent).1 := by
            intro hmem
            exact hrc (hgrp (r, c) hmem)
          have hkeep :
              removeGroup b (getGroupAndLiberties height width b p.1 p.2 opponent).1 r c
                = b r c := by
            rw [removeGroup_apply]
            simp [hnot]
          rw [ih _ _ _ r c (by rw [hkeep]; exact hrc), hkeep]
        · rw [if_neg h2]
          exact ih _ _ _ r c hrc
      · rw [if_neg h1]
        exact ih _ _ _ r c hrc

/-- The scalar fields `_captureOpponents` never touches. -/
theorem captureOpponents_fields (s : GameState) :
    (captureOpponents s).1.height = s.height ∧
    (captureOpponents s).1.width = s.width ∧
    (captureOpponents s).1.currentPlayer = s.currentPlayer ∧
    (captureOpponents s).1.gameOver = s.gameOver ∧
    (captureOpponents s).1.previousBoardStates = s.previousBoardStates ∧
    (captureOpponents s).1.consecutivePasses = s.consecutivePasses ∧
    (captureOpponents s).1.blackTerritory = s.blackTerritory ∧
    (captureOpponents s).1.whiteTerritory = s.whiteTerritory := by
  unfold captureOpponents
  by_cases h :
      (captureScan s.height s.width (opponentOf s.currentPlayer)
        (cellList s.height s.width) s.boardArray ∅ 0).2 > 0
  · cases hp : s.currentPlayer <;> rw [hp] at h <;> simp [h, hp]
  · simp [h]

/-- If nothing was captured, `_captureOpponents` is the identity on the
state and emits nothing. -/
theorem captureOpponents_zero (s : GameState)
    (h : (captureOpponents s).2.1 = 0) :
    (captureOpponents s).1 = s ∧ (captureOpponents s).2.2 = [] := by
  have hres : (captureOpponents s).2.1 =
      (captureScan s.height s.width (opponentOf s.currentPlayer)
        (cellList s.height s.width) s.boardArray ∅ 0).2 := by
    unfold captureOpponents
    by_cases hpos :
        (captureScan s.height s.width (opponentOf s.currentPlayer)
          (cellList s.height s.width) s.boardArray ∅ 0).2 > 0
    · cases hp : s.currentPlayer <;> rw [hp] at hpos <;> simp [hpos, hp]
    · simp [hpos]
  rw [hres] at h
  have hboard := captureScan_zero_board s.height s.width
    (opponentOf s.currentPlayer) (cellList s.height s.width)
    s.boardArray ∅ 0 h
  unfold captureOpponents
  simp only [h, gt_iff_lt, Nat.lt_irrefl, if_false]
  constructor
  · rw [hboard]
  · trivial

/-- Claim C10: capture resolution clears only cells that hold the
opponent's colour; any cell holding the mover's colour (including the
stone just placed) or an empty cell is returned byte-for-byte
unchanged. -/
theorem claim_C10_capture_frame (s : GameState) (r c : Nat)
    (h : s.boardArray r c ≠ some (opponentOf s.currentPlayer)) :
    (captureOpponents s).1.boardArray r c = s.boardArray r c := by
  have hframe := captureScan_frame s.height s.width
    (opponentOf s.currentPlayer) (cellList s.height s.width)
    s.boardArray ∅ 0 r c h
  unfold captureOpponents
  by_cases hpos :
      (captureScan s.height s.width (opponentOf s.currentPlayer)
        (cellList s.height s.width) s.boardArray ∅ 0).2 > 0
  · cases hp : s.currentPlayer <;> rw [hp] at hpos hframe <;>
      simp [hpos, hp] <;> exact hframe
  · simp [hpos]
    exact hframe

/-- Witness for claim C10: after Black's lone stone at (0,0) on a 1x3
board (White to move, so the opponent colour is Black), capture
resolution leaves the empty cell (0,1) unchanged. -/
theorem claim_C10_witness :
    (captureOpponents (runMoves (initState 3 1) [(0, 0)])).1.boardArray 0 1 =
      (runMoves (initState 3 1) [(0, 0)]).boardArray 0 1 :=
  claim_C10_capture_frame (runMoves (initState 3 1) [(0, 0)]) 0 1 (by decide)

/-! ## Claim C2: the suicide revert -/

/-- Claim C2 counterexample: on a 1x4 board holding Black (0,0) and White
(0,2) — a position reached by two legal moves — Black's play at (0,1) is
a suicide (the merged group B(0,0)-B(0,1) has no liberty and nothing is
captured), and the revert erases the whole group: the pre-existing Black
stone at (0,0) disappears, so the grid is not byte-for-byte restored, and
the pre-move snapshot stays appended to previousBoardStates. -/
theorem claim_C2_cex :
    let s2 := runMoves (initState 4 1) [(0, 0), (0, 2)]
    let s3 := (handleMove s2 0 1).1
    s2.boardArray 0 0 = some Player.B ∧
    s3.boardArray 0 0 = none ∧
    s3.previousBoardStates.length = s2.previousBoardStates.length + 1 := by
  decide

/-- Claim C2, amended: a suicide placement (zero liberties for the
resulting own group, zero captures) is rejected with no turn switch, no
counter change and no events, but the revert removes the placed stone's
entire group — erasing any own stones the placement connected with, the
grid being restored exactly only when that group is the lone placed
stone — and the pre-move board stays appended to previousBoardStates. -/
theorem claim_C2_amended (s : GameState) (row col : Int)
    (hg : s.gameOver = false)
    (hb : 0 ≤ row ∧ row < (s.height : Int) ∧ 0 ≤ col ∧ col < (s.width : Int))
    (he : s.boardArray row.toNat col.toNat = none)
    (hcap : capturedCount s row.toNat col.toNat = 0)
    (hlib : moverLiberties s row.toNat col.toNat = 0) :
    (handleMove s row col).1.currentPlayer = s.currentPlayer ∧
    (handleMove s row col).1.blackCaptures = s.blackCaptures ∧
    (handleMove s row col).1.whiteCaptures = s.whiteCaptures ∧
    (handleMove s row col).1.gameOver = false ∧
    (handleMove s row col).1.consecutivePasses = s.consecutivePasses ∧
    (handleMove s row col).1.previousBoardStates =
      s.previousBoardStates ++ [s.boardArray] ∧
    (row.toNat, col.toNat) ∈ moverGroup s row.toNat col.toNat ∧
    (∀ p : Coord, (handleMove s row col).1.boardArray p.1 p.2 =
      if p ∈ moverGroup s row.toNat col.toNat then none
      else s.boardArray p.1 p.2) ∧
    (handleMove s row col).2 = [] := by
  have hzero := captureOpponents_zero (placedState s row.toNat col.toNat) hcap
  have hs3 : afterCaptures s row.toNat col.toNat =
      placedState s row.toNat col.toNat := hzero.1
  have hmove : handleMove s row col =
      ({ afterCaptures s row.toNat col.toNat with
          boardArray := removeGroup
            (afterCaptures s row.toNat col.toNat).boardArray
            (moverGroup s row.toNat col.toNat) },
        (captureOpponents (placedState s row.toNat col.toNat)).2.2) := by
    simp only [handleMove]
    rw [if_neg (by rw [hg]; simp)]
    rw [if_neg (not_not_intro hb)]
    rw [if_neg (by rw [he]; simp)]
    rw [if_pos ⟨hlib, hcap⟩]
  have hstart : (row.toNat, col.toNat) ∈ moverGroup s row.toNat col.toNat :=
    getGroupAndLiberties_start_mem _ _ _ _ _ _
  rw [hmove]
  refine ⟨by rw [hs3]; rfl, by rw [hs3]; rfl, by rw [hs3]; rfl,
    by rw [hs3]; exact hg, by rw [hs3]; rfl, by rw [hs3]; rfl,
    hstart, ?_, hzero.2⟩
  intro p
  show removeGroup (afterCaptures s row.toNat col.toNat).boardArray
      (moverGroup s row.toNat col.toNat) p.1 p.2 = _
  rw [removeGroup_apply]
  by_cases hp : p ∈ moverGroup s row.toNat col.toNat
  · rw [if_pos (by rw [show ((p.1, p.2) : Coord) = p from rfl]; exact hp),
        if_pos hp]
  · rw [if_neg (by rw [show ((p.1, p.2) : Coord) = p from rfl]; exact hp),
        if_neg hp, hs3]
    show setCell s.boardArray row.toNat col.toNat (some s.currentPlayer) p.1 p.2
        = s.boardArray p.1 p.2
    apply setCell_ne
    intro hcontra
    exact hp (by
      rw [show p = (row.toNat, col.toNat) from Prod.ext hcontra.1 hcontra.2]
      exact hstart)

/-- Witness for claim C2's amended theorem: the 1x4 suicide scenario
satisfies every hypothesis, and the theorem applies. -/
theorem claim_C2_amended_witness :
    (runMoves (initState 4 1) [(0, 0), (0, 2)]).gameOver = false ∧
    (handleMove (runMoves (initState 4 1) [(0, 0), (0, 2)]) 0 1).2 = [] :=
  ⟨by decide,
    (claim_C2_amended (runMoves (initState 4 1) [(0, 0), (0, 2)]) 0 1
      (by decide) (by decide) (by decide) (by decide)
      (by decide)).2.2.2.2.2.2.2.2⟩

/-! ## Claim C9: what a caller can observe -/

/-- Claim C9 counterexample: after Black's stone at (0,0) on a 2x2 board,
playing the occupied cell (0,0) and playing the out-of-bounds cell (5,5)
are rejections of different kinds, yet `handleMove` produces literally
identical results (Python returns None and leaves the state untouched in
both cases), so no `MoveResult` identifying the outcome exists. -/
theorem claim_C9_cex :
    let s := runMoves (initState 2 2) [(0, 0)]
    handleMove s 0 0 = handleMove s 5 5 ∧
    s.boardArray 0 0 = some Player.B ∧
    s.gameOver = false ∧ s.height = 2 ∧ s.width = 2 :=
  ⟨rfl, rfl, rfl, rfl, rfl⟩

/-- Claim C9, amended: `handleMove` surfaces no result kind at all.  Each
of the three precondition rejections (game already over, out-of-bounds
coordinate, occupied cell) returns with the state unchanged and no
events, all three outcomes observationally identical to the caller. -/
theorem claim_C9_amended (s : GameState) (row col : Int)
    (h : s.gameOver = true ∨
      ¬ (0 ≤ row ∧ row < (s.height : Int) ∧ 0 ≤ col ∧ col < (s.width : Int)) ∨
      (s.boardArray row.toNat col.toNat).isSome = true) :
    handleMove s row col = (s, []) := by
  rcases h with h | h | h
  · simp [handleMove, h]
  · by_cases hg : s.gameOver = true
    · simp [handleMove, hg]
    · simp [handleMove, hg, h]
  · by_cases hg : s.gameOver = true
    · simp [handleMove, hg]
    · by_cases hb :
          0 ≤ row ∧ row < (s.height : Int) ∧ 0 ≤ col ∧ col < (s.width : Int)
      · simp [handleMove, hg, hb, h]
      · simp [handleMove, hg, hb]

/-- Witness for claim C9's amended theorem: an out-of-bounds request on a
fresh 2x2 game. -/
theorem claim_C9_amended_witness :
    handleMove (initState 2 2) 9 9 = (initState 2 2, []) :=
  claim_C9_amended (initState 2 2) 9 9 (Or.inr (Or.inl (by decide)))

/-! ## Claim C8: turn alternation -/

theorem switchPlayer_currentPlayer (s : GameState) :
    (switchPlayer s).1.currentPlayer = opponentOf s.currentPlayer := by
  cases h : s.currentPlayer <;> simp [switchPlayer, h, opponentOf]

theorem afterCaptures_currentPlayer (s : GameState) (r c : Nat) :
    (afterCaptures s r c).currentPlayer = s.currentPlayer :=
  (captureOpponents_fields (placedState s r c)).2.2.1

/-- Claim C8 counterexample: a pass from a non-terminated state with one
recorded pass is accepted — it returns normally and ends the game — yet
`currentPlayer` does not alternate (Black before, Black after). -/
theorem claim_C8_cex :
    let s : GameState := { initState 3 3 with consecutivePasses := some 1 }
    ∃ r, passMove s = Except.ok r ∧ r.1.gameOver = true ∧
      s.currentPlayer = Player.B ∧ r.1.currentPlayer = Player.B :=
  ⟨_, rfl, rfl, rfl, rfl⟩

/-- Claim C8, amended: `currentPlayer` alternates strictly after every
accepted placement and after an accepted pass that does not end the game;
the game-ending second pass is accepted but leaves `currentPlayer`
unchanged; and every rejected placement (game over, out of bounds,
occupied, suicide, or a ko hit) leaves `currentPlayer` unchanged. -/
theorem claim_C8_amended (s : GameState) (row col : Int) :
    ((s.gameOver = false ∧
      (0 ≤ row ∧ row < (s.height : Int) ∧ 0 ≤ col ∧ col < (s.width : Int)) ∧
      s.boardArray row.toNat col.toNat = none ∧
      ¬ (moverLiberties s row.toNat col.toNat = 0 ∧
        capturedCount s row.toNat col.toNat = 0) ∧
      isKO (afterCaptures s row.toNat col.toNat) = false) →
      (handleMove s row col).1.currentPlayer = opponentOf s.currentPlayer) ∧
    ((s.gameOver = true ∨
      ¬ (0 ≤ row ∧ row < (s.height : Int) ∧ 0 ≤ col ∧ col < (s.width : Int)) ∨
      (s.boardArray row.toNat col.toNat).isSome = true ∨
      (moverLiberties s row.toNat col.toNat = 0 ∧
        capturedCount s row.toNat col.toNat = 0) ∨
      isKO (afterCaptures s row.toNat col.toNat) = true) →
      (handleMove s row col).1.currentPlayer = s.currentPlayer) ∧
    ((s.gameOver = false ∧ s.consecutivePasses = some 0) →
      ∃ r, passMove s = Except.ok r ∧
        r.1.currentPlayer = opponentOf s.currentPlayer) ∧
    (∀ n : Nat, s.gameOver = false → s.consecutivePasses = some (n + 1) →
      ∃ r, passMove s = Except.ok r ∧ r.1.gameOver = true ∧
        r.1.currentPlayer = s.currentPlayer) := by
  refine ⟨?_, ?_, ?_, ?_⟩
  · rintro ⟨hg, hb, he, hns, hko⟩
    have hmove : (handleMove s row col).1 =
        (switchPlayer (updateTerritory
          (if capturedCount s row.toNat col.toNat > 0 then
            match (afterCaptures s row.toNat col.toNat).currentPlayer with
            | .B => { afterCaptures s row.toNat col.toNat with
                blackCaptures := (afterCaptures s row.toNat col.toNat).blackCaptures +
                  capturedCount s row.toNat col.toNat }
            | .W => { afterCaptures s row.toNat col.toNat with
                whiteCaptures := (afterCaptures s row.toNat col.toNat).whiteCaptures +
                  capturedCount s row.toNat col.toNat }
          else afterCaptures s row.toNat col.toNat)).1).1 := by
      simp only [handleMove]
      rw [if_neg (by rw [hg]; simp)]
      rw [if_neg (not_not_intro hb)]
      rw [if_neg (by rw [he]; simp)]
      rw [if_neg hns]
      rw [if_neg (by rw [hko]; simp)]
    rw [hmove, switchPlayer_currentPlayer]
    have hcur :
        (updateTerritory
          (if capturedCount s row.toNat col.toNat > 0 then
            match (afterCaptures s row.toNat col.toNat).currentPlayer with
            | .B => { afterCaptures s row.toNat col.toNat with
                blackCaptures := (afterCaptures s row.toNat col.toNat).blackCaptures +
                  capturedCount s row.toNat col.toNat }
            | .W => { afterCaptures s row.toNat col.toNat with
                whiteCaptures := (afterCaptures s row.toNat col.toNat).whiteCaptures +
                  capturedCount s row.toNat col.toNat }
          else afterCaptures s row.toNat col.toNat)).1.currentPlayer
          = s.currentPlayer := by
      by_cases hc : capturedCount s row.toNat col.toNat > 0
      · rw [if_pos hc]
        cases hcp : (afterCaptures s row.toNat col.toNat).currentPlayer <;>
          exact afterCaptures_currentPlayer s _ _
      · rw [if_neg hc]
        exact afterCaptures_currentPlayer s _ _
    rw [hcur]
  · intro h
    by_cases hg : s.gameOver = true
    · simp [handleMove, hg]
    · by_cases hb :
          0 ≤ row ∧ row < (s.height : Int) ∧ 0 ≤ col ∧ col < (s.width : Int)
      · by_cases hocc : (s.boardArray row.toNat col.toNat).isSome = true
        · simp [handleMove, hg, hb, hocc]
        · have he : s.boardArray row.toNat col.toNat = none :=
            Option.not_isSome_iff_eq_none.mp (by simpa using hocc)
          by_cases hsui : moverLiberties s row.toNat col.toNat = 0 ∧
              capturedCount s row.toNat col.toNat = 0
          · have hmove : (handleMove s row col).1 =
                { afterCaptures s row.toNat col.toNat with
                  boardArray := removeGroup
                    (afterCaptures s row.toNat col.toNat).boardArray
                    (moverGroup s row.toNat col.toNat) } := by
              simp only [handleMove]
              rw [if_neg (by simp [hg])]
              rw [if_neg (not_not_intro hb)]
              rw [if_neg (by rw [he]; simp)]
              rw [if_pos hsui]
            exact hmove ▸ afterCaptures_currentPlayer s _ _
          · by_cases hko : isKO (afterCaptures s row.toNat col.toNat) = true
            · have hmove : (handleMove s row col).1 =
                  { afterCaptures s row.toNat col.toNat with
                    boardArray := setCell
                      (afterCaptures s row.toNat col.toNat).boardArray
                      row.toNat col.toNat none,
                    previousBoardStates :=
                      (afterCaptures s row.toNat col.toNat).previousBoardStates.dropLast } := by
                simp only [handleMove]
                rw [if_neg (by simp [hg])]
                rw [if_neg (not_not_intro hb)]
                rw [if_neg (by rw [he]; simp)]
                rw [if_neg hsui]
                rw [if_pos hko]
              exact hmove ▸ afterCaptures_currentPlayer s _ _
            · rcases h with h | h | h | h | h
              · exact absurd h hg
              · exact absurd hb h
              · rw [he] at h; simp at h
              · exact absurd h hsui
              · exact absurd h hko
      · simp [handleMove, hg, hb]
  · rintro ⟨hg, hcp⟩
    refine ⟨switchPlayer { s with consecutivePasses := some 1 }, ?_, ?_⟩
    · simp [passMove, hg, hcp]
    · exact switchPlayer_currentPlayer _
  · intro n hg hcp
    have hpm : passMove s = Except.ok
        ((computeTerritory
            { s with consecutivePasses := some (n + 1 + 1), gameOver := true }).1,
         (computeTerritory
            { s with consecutivePasses := some (n + 1 + 1), gameOver := true }).2 ++
           [Event.gameOverMsg (finalResultMessage
             (computeTerritory
               { s with consecutivePasses := some (n + 1 + 1),
                        gameOver := true }).1)]) := by
      simp only [passMove]
      rw [if_neg (by simp [hg]), hcp]
      simp only [ge_iff_le]
      rw [if_pos (by omega)]
    exact ⟨_, hpm, rfl, rfl⟩

/-- Witness for claim C8's amended theorem: Black's opening move on a
fresh 2x2 board is accepted and the turn passes to White. -/
theorem claim_C8_amended_witness :
    (handleMove (initState 2 2) 0 0).1.currentPlayer =
      opponentOf (initState 2 2).currentPlayer :=
  (claim_C8_amended (initState 2 2) 0 0).1
    ⟨by decide, by decide, by decide, by decide, by decide⟩

/-! ## Claim C7 infrastructure: coordinates, candidates, reachability -/

/-- The in-bounds cells of the board, as a finite set. -/
def gridCells (height width : Nat) : Finset Coord :=
  Finset.range height ×ˢ Finset.range width

theorem mem_gridCells (height width : Nat) (p : Coord) :
    p ∈ gridCells height width ↔ inGrid height width p := by
  simp [gridCells, inGrid, Finset.mem_product]

theorem inBoundsI_iff (height width : Nat) (r c : Int) :
    inBoundsI height width r c = true ↔
      0 ≤ r ∧ r < (height : Int) ∧ 0 ≤ c ∧ c < (width : Int) := by
  simp [inBoundsI]

/-- `y` arises from some candidate in `L` that passes the bounds check. -/
def foldCand (height width : Nat) (L : List (Int × Int)) (y : Coord) : Prop :=
  ∃ nb ∈ L, inBoundsI height width nb.1 nb.2 = true ∧
    ((nb.1.toNat, nb.2.toNat) : Coord) = y

theorem foldCand_nbrsInt (height width : Nat) (p y : Coord) :
    foldCand height width (nbrsInt p) y ↔
      inGrid height width y ∧ adjCoord p y := by
  constructor
  · rintro ⟨nb, hnb, hbound, hy⟩
    rw [inBoundsI_iff] at hbound
    obtain ⟨hb1, hb2, hb3, hb4⟩ := hbound
    have hy1 : nb.1.toNat = y.1 := congrArg Prod.fst hy
    have hy2 : nb.2.toNat = y.2 := congrArg Prod.snd hy
    simp only [nbrsInt, List.mem_cons, List.not_mem_nil, or_false] at hnb
    rcases hnb with rfl | rfl | rfl | rfl <;>
      simp only at hy1 hy2 hb1 hb2 hb3 hb4 <;>
      refine ⟨⟨by omega, by omega⟩, ?_⟩
    · exact Or.inr ⟨by omega, Or.inr (by omega)⟩
    · exact Or.inr ⟨by omega, Or.inl (by omega)⟩
    · exact Or.inl ⟨by omega, Or.inr (by omega)⟩
    · exact Or.inl ⟨by omega, Or.inl (by omega)⟩
  · rintro ⟨⟨hg1, hg2⟩, hadj⟩
    rcases hadj with ⟨h1, h2 | h2⟩ | ⟨h1, h2 | h2⟩
    · refine ⟨((p.1 : Int), (p.2 : Int) + 1), by simp [nbrsInt], ?_, ?_⟩
      · rw [inBoundsI_iff]; omega
      · exact Prod.ext (by omega) (by omega)
    · refine ⟨((p.1 : Int), (p.2 : Int) - 1), by simp [nbrsInt], ?_, ?_⟩
      · rw [inBoundsI_iff]; omega
      · exact Prod.ext (by omega) (by omega)
    · refine ⟨((p.1 : Int) + 1, (p.2 : Int)), by simp [nbrsInt], ?_, ?_⟩
      · rw [inBoundsI_iff]; omega
      · exact Prod.ext (by omega) (by omega)
    · refine ⟨((p.1 : Int) - 1, (p.2 : Int)), by simp [nbrsInt], ?_, ?_⟩
      · rw [inBoundsI_iff]; omega
      · exact Prod.ext (by omega) (by omega)

/-- A candidate that passes the bounds check denotes an in-bounds cell. -/
theorem foldCand_inGrid (height width : Nat) (L : List (Int × Int))
    (y : Coord) (h : foldCand height width L y) : inGrid height width y := by
  obtain ⟨nb, _, hbound, hy⟩ := h
  rw [inBoundsI_iff] at hbound
  have hy1 : nb.1.toNat = y.1 := congrArg Prod.fst hy
  have hy2 : nb.2.toNat = y.2 := congrArg Prod.snd hy
  exact ⟨by omega, by omega⟩

theorem adjCoord_symm (p q : Coord) (h : adjCoord p q) : adjCoord q p := by
  rcases h with ⟨h1, h2⟩ | ⟨h1, h2⟩
  · exact Or.inl ⟨h1.symm, h2.symm⟩
  · exact Or.inr ⟨h1.symm, h2.symm⟩

theorem emptyStep_symm (height width : Nat) (b : Board) :
    Symmetric (emptyStep height width b) := by
  rintro p q ⟨h1, h2, h3, h4, h5⟩
  exact ⟨h2, h1, h4, h3, adjCoord_symm p q h5⟩

theorem reaches_symm (height width : Nat) (b : Board) (p q : Coord)
    (h : reaches height width b p q) : reaches height width b q p :=
  Relation.ReflTransGen.symmetric (emptyStep_symm height width b) h

/-- Along with an empty in-bounds start, every reached cell is an empty
in-bounds cell. -/
theorem reaches_props (height width : Nat) (b : Board) (start x : Coord)
    (hse : b start.1 start.2 = none) (hsg : inGrid height width start)
    (h : reaches height width b start x) :
    inGrid height width x ∧ b x.1 x.2 = none := by
  induction h with
  | refl => exact ⟨hsg, hse⟩
  | tail _ hstep _ => exact ⟨hstep.2.1, hstep.2.2.2.1⟩

/-- A set closed under `emptyStep` that misses `start` misses the whole
region of `start`. -/
theorem closed_misses_region (height width : Nat) (b : Board)
    (S : Finset Coord)
    (hclosed : ∀ v ∈ S, ∀ y, emptyStep height width b v y → y ∈ S)
    (start : Coord) (hstart : start ∉ S) :
    ∀ x, reaches height width b start x → x ∉ S := by
  intro x hx hxS
  have key : ∀ z, reaches height width b start z → z ∈ S → start ∈ S := by
    intro z hz
    induction hz with
    | refl => exact fun h => h
    | tail hsm hstep ih =>
        intro hzS
        exact ih (hclosed _ hzS _ (emptyStep_symm height width b hstep))
  exact hstart (key x hx hxS)

/-- Two cells of one region have the same set of bordering colours. -/
theorem regionBorders_congr (height width : Nat) (b : Board) (p q : Coord)
    (h : reaches height width b p q) (col : Player) :
    regionBorders height width b p col ↔ regionBorders height width b q col := by
  constructor
  · rintro ⟨z, x, hz, hx1, hx2, hx3⟩
    exact ⟨z, x, Relation.ReflTransGen.trans (reaches_symm _ _ _ _ _ h) hz,
      hx1, hx2, hx3⟩
  · rintro ⟨z, x, hz, hx1, hx2, hx3⟩
    exact ⟨z, x, Relation.ReflTransGen.trans h hz, hx1, hx2, hx3⟩

theorem foldCand_nil (height width : Nat) (y : Coord) :
    ¬ foldCand height width [] y := by
  rintro ⟨nb, hnb, _⟩
  exact absurd hnb (List.not_mem_nil nb)

theorem foldCand_cons (height width : Nat) (nb : Int × Int)
    (rest : List (Int × Int)) (y : Coord) :
    foldCand height width (nb :: rest) y ↔
      (inBoundsI height width nb.1 nb.2 = true ∧
        ((nb.1.toNat, nb.2.toNat) : Coord) = y) ∨
      foldCand height width rest y := by
  constructor
  · rintro ⟨nb', hnb', hb, hy⟩
    rcases List.mem_cons.mp hnb' with rfl | h
    · exact Or.inl ⟨hb, hy⟩
    · exact Or.inr ⟨nb', h, hb, hy⟩
  · rintro (⟨hb, hy⟩ | ⟨nb', h, hb, hy⟩)
    · exact ⟨nb, List.mem_cons_self nb rest, hb, hy⟩
    · exact ⟨nb', List.mem_cons_of_mem nb h, hb, hy⟩

theorem exploreCellStep_visited_mono (height width : Nat) (b : Board)
    (acc : List Coord × Finset Coord × Bool × Bool) (nb : Int × Int) :
    acc.2.1 ⊆ (exploreCellStep height width b acc nb).2.1 := by
  unfold exploreCellStep
  by_cases hb : inBoundsI height width nb.1 nb.2 = true
  · by_cases hv : ((nb.1.toNat, nb.2.toNat) : Coord) ∈ acc.2.1
    · simp [hb, hv]
    · by_cases he : b nb.1.toNat nb.2.toNat = none
      · simp only [hb, if_true, hv, not_false_iff, he]
        simp
      · simp [hb, hv, he]
  · simp [hb]

/-- Structure of the neighbour fold: it appends a block of freshly
visited empty candidate cells to the queue and to the visited set. -/
theorem exploreFold_struct (height width : Nat) (b : Board)
    (L : List (Int × Int)) :
    ∀ acc : List Coord × Finset Coord × Bool × Bool,
      ∃ new : List Coord,
        (List.foldl (exploreCellStep height width b) acc L).1 = acc.1 ++ new ∧
        (List.foldl (exploreCellStep height width b) acc L).2.1 =
          acc.2.1 ∪ new.toFinset ∧
        new.Nodup ∧
        (∀ q ∈ new, q ∉ acc.2.1 ∧ b q.1 q.2 = none ∧
          foldCand height width L q) := by
  induction L with
  | nil =>
      intro acc
      exact ⟨[], by simp, by simp, List.nodup_nil, by simp⟩
  | cons nb rest ih =>
      intro acc
      rw [List.foldl_cons]
      by_cases hb : inBoundsI height width nb.1 nb.2 = true
      · by_cases hv : ((nb.1.toNat, nb.2.toNat) : Coord) ∈ acc.2.1
        · have hstep : exploreCellStep height width b acc nb = acc := by
            simp [exploreCellStep, hb, hv]
          rw [hstep]
          obtain ⟨new, h1, h2, h3, h4⟩ := ih acc
          refine ⟨new, h1, h2, h3, fun q hq => ?_⟩
          obtain ⟨hq1, hq2, hq3⟩ := h4 q hq
          exact ⟨hq1, hq2, (foldCand_cons height width nb rest q).mpr (Or.inr hq3)⟩
        · by_cases he : b nb.1.toNat nb.2.toNat = none
          · have hstep : exploreCellStep height width b acc nb =
                (acc.1 ++ [((nb.1.toNat, nb.2.toNat) : Coord)],
                  insert ((nb.1.toNat, nb.2.toNat) : Coord) acc.2.1,
                  acc.2.2.1, acc.2.2.2) := by
              simp [exploreCellStep, hb, hv, he]
            rw [hstep]
            obtain ⟨new, h1, h2, h3, h4⟩ := ih
              (acc.1 ++ [((nb.1.toNat, nb.2.toNat) : Coord)],
                insert ((nb.1.toNat, nb.2.toNat) : Coord) acc.2.1,
                acc.2.2.1, acc.2.2.2)
            refine ⟨((nb.1.toNat, nb.2.toNat) : Coord) :: new, ?_, ?_, ?_, ?_⟩
            · rw [h1]
              simp
            · rw [h2]
              ext x
              simp only [Finset.mem_union, Finset.mem_insert, List.toFinset_cons,
                List.mem_toFinset]
              constructor
              · rintro ((rfl | h) | h)
                · exact Or.inr (Or.inl rfl)
                · exact Or.inl h
                · exact Or.inr (Or.inr (by simpa using h))
              · rintro (h | (rfl | h))
                · exact Or.inl (Or.inr h)
                · exact Or.inl (Or.inl rfl)
                · exact Or.inr (by simpa using h)
            · refine List.nodup_cons.mpr ⟨?_, h3⟩
              intro hmem
              exact (h4 _ hmem).1 (Finset.mem_insert_self _ _)
            · intro q hq
              rcases List.mem_cons.mp hq with rfl | hq'
              · exact ⟨hv, he,
                  (foldCand_cons height width nb rest _).mpr (Or.inl ⟨hb, rfl⟩)⟩
              · obtain ⟨hq1, hq2, hq3⟩ := h4 q hq'
                refine ⟨fun hmem => hq1 (Finset.mem_insert_of_mem hmem), hq2,
                  (foldCand_cons height width nb rest q).mpr (Or.inr hq3)⟩
          · have hstep : exploreCellStep height width b acc nb =
                (acc.1, acc.2.1,
                  acc.2.2.1 || decide (b nb.1.toNat nb.2.toNat = some Player.B),
                  acc.2.2.2 || decide (b nb.1.toNat nb.2.toNat = some Player.W)) := by
              simp [exploreCellStep, hb, hv, he]
            rw [hstep]
            obtain ⟨new, h1, h2, h3, h4⟩ := ih
              (acc.1, acc.2.1,
                acc.2.2.1 || decide (b nb.1.toNat nb.2.toNat = some Player.B),
                acc.2.2.2 || decide (b nb.1.toNat nb.2.toNat = some Player.W))
            refine ⟨new, h1, h2, h3, fun q hq => ?_⟩
            obtain ⟨hq1, hq2, hq3⟩ := h4 q hq
            exact ⟨hq1, hq2, (foldCand_cons height width nb rest q).mpr (Or.inr hq3)⟩
      · have hstep : exploreCellStep height width b acc nb = acc := by
          simp [exploreCellStep, hb]
        rw [hstep]
        obtain ⟨new, h1, h2, h3, h4⟩ := ih acc
        refine ⟨new, h1, h2, h3, fun q hq => ?_⟩
        obtain ⟨hq1, hq2, hq3⟩ := h4 q hq
        exact ⟨hq1, hq2, (foldCand_cons height width nb rest q).mpr (Or.inr hq3)⟩

theorem exploreFold_visited_mono (height width : Nat) (b : Board)
    (L : List (Int × Int)) (acc : List Coord × Finset Coord × Bool × Bool) :
    acc.2.1 ⊆ (List.foldl (exploreCellStep height width b) acc L).2.1 := by
  obtain ⟨new, _, h2, _, _⟩ := exploreFold_struct height width b L acc
  rw [h2]
  exact Finset.subset_union_left

/-- Every empty candidate cell of the fold ends up visited. -/
theorem exploreFold_complete (height width : Nat) (b : Board)
    (L : List (Int × Int)) :
    ∀ acc (y : Coord), foldCand height width L y → b y.1 y.2 = none →
      y ∈ (List.foldl (exploreCellStep height width b) acc L).2.1 := by
  induction L with
  | nil => intro acc y hc _; exact absurd hc (foldCand_nil height width y)
  | cons nb rest ih =>
      intro acc y hc hye
      rw [List.foldl_cons]
      rcases (foldCand_cons height width nb rest y).mp hc with ⟨hb, hy⟩ | hc'
      · have hmem : y ∈ (exploreCellStep height width b acc nb).2.1 := by
          by_cases hv : y ∈ acc.2.1
          · exact exploreCellStep_visited_mono height width b acc nb hv
          · rw [← hy] at hv ⊢
            rw [← hy] at hye
            simp [exploreCellStep, hb, hv, hye]
        exact exploreFold_visited_mono height width b rest _ hmem
      · exact ih _ y hc' hye

/-- The border flags collected by the fold: provided the visited set
holds only empty cells (so stones are never suppressed by the visited
test), a flag ends up set exactly when it was already set or some
candidate cell holds a stone of that colour; and the visited set keeps
holding only empty cells. -/
theorem exploreFold_flags (height width : Nat) (b : Board)
    (L : List (Int × Int)) :
    ∀ acc : List Coord × Finset Coord × Bool × Bool,
      (∀ v ∈ acc.2.1, b v.1 v.2 = none) →
      (∀ v ∈ (List.foldl (exploreCellStep height width b) acc L).2.1,
        b v.1 v.2 = none) ∧
      ((List.foldl (exploreCellStep height width b) acc L).2.2.1 = true ↔
        (acc.2.2.1 = true ∨ ∃ y : Coord, foldCand height width L y ∧
          b y.1 y.2 = some Player.B)) ∧
      ((List.foldl (exploreCellStep height width b) acc L).2.2.2 = true ↔
        (acc.2.2.2 = true ∨ ∃ y : Coord, foldCand height width L y ∧
          b y.1 y.2 = some Player.W)) := by
  induction L with
  | nil =>
      intro acc hvis
      refine ⟨hvis, ?_, ?_⟩ <;>
        simp only [List.foldl_nil] <;>
        constructor <;> intro h
      · exact Or.inl h
      · rcases h with h | ⟨y, hc, _⟩
        · exact h
        · exact absurd hc (foldCand_nil height width y)
      · exact Or.inl h
      · rcases h with h | ⟨y, hc, _⟩
        · exact h
        · exact absurd hc (foldCand_nil height width y)
  | cons nb rest ih =>
      intro acc hvis
      rw [List.foldl_cons]
      by_cases hb : inBoundsI height width nb.1 nb.2 = true
      · by_cases hv : ((nb.1.toNat, nb.2.toNat) : Coord) ∈ acc.2.1
        · have hqe : b nb.1.toNat nb.2.toNat = none := hvis _ hv
          have hstep : exploreCellStep height width b acc nb = acc := by
            simp [exploreCellStep, hb, hv]
          rw [hstep]
          obtain ⟨p1, p2, p3⟩ := ih acc hvis
          refine ⟨p1, ?_, ?_⟩
          · rw [p2]
            constructor
            · rintro (h | ⟨y, hc, hcol⟩)
              · exact Or.inl h
              · exact Or.inr ⟨y,
                  (foldCand_cons height width nb rest y).mpr (Or.inr hc), hcol⟩
            · rintro (h | ⟨y, hc, hcol⟩)
              · exact Or.inl h
              · rcases (foldCand_cons height width nb rest y).mp hc with
                  ⟨_, hy⟩ | hc'
                · rw [← hy] at hcol
                  rw [hqe] at hcol
                  exact absurd hcol (by simp)
                · exact Or.inr ⟨y, hc', hcol⟩
          · rw [p3]
            constructor
            · rintro (h | ⟨y, hc, hcol⟩)
              · exact Or.inl h
              · exact Or.inr ⟨y,
                  (foldCand_cons height width nb rest y).mpr (Or.inr hc), hcol⟩
            · rintro (h | ⟨y, hc, hcol⟩)
              · exact Or.inl h
              · rcases (foldCand_cons height width nb rest y).mp hc with
                  ⟨_, hy⟩ | hc'
                · rw [← hy] at hcol
                  rw [hqe] at hcol
                  exact absurd hcol (by simp)
                · exact Or.inr ⟨y, hc', hcol⟩
        · by_cases he : b nb.1.toNat nb.2.toNat = none
          · have hstep : exploreCellStep height width b acc nb =
                (acc.1 ++ [((nb.1.toNat, nb.2.toNat) : Coord)],
                  insert ((nb.1.toNat, nb.2.toNat) : Coord) acc.2.1,
                  acc.2.2.1, acc.2.2.2) := by
              simp [exploreCellStep, hb, hv, he]
            rw [hstep]
            have hvis' : ∀ v ∈ insert ((nb.1.toNat, nb.2.toNat) : Coord) acc.2.1,
                b v.1 v.2 = none := by
              intro v hvm
              rcases Finset.mem_insert.mp hvm with rfl | hvm'
              · exact he
              · exact hvis v hvm'
            obtain ⟨p1, p2, p3⟩ := ih
              (acc.1 ++ [((nb.1.toNat, nb.2.toNat) : Coord)],
                insert ((nb.1.toNat, nb.2.toNat) : Coord) acc.2.1,
                acc.2.2.1, acc.2.2.2) hvis'
            refine ⟨p1, ?_, ?_⟩
            · rw [p2]
              constructor
              · rintro (h | ⟨y, hc, hcol⟩)
                · exact Or.inl h
                · exact Or.inr ⟨y,
                    (foldCand_cons height width nb rest y).mpr (Or.inr hc), hcol⟩
              · rintro (h | ⟨y, hc, hcol⟩)
                · exact Or.inl h
                · rcases (foldCand_cons height width nb rest y).mp hc with
                    ⟨_, hy⟩ | hc'
                  · rw [← hy] at hcol
                    rw [he] at hcol
                    exact absurd hcol (by simp)
                  · exact Or.inr ⟨y, hc', hcol⟩
            · rw [p3]
              constructor
              · rintro (h | ⟨y, hc, hcol⟩)
                · exact Or.inl h
                · exact Or.inr ⟨y,
                    (foldCand_cons height width nb rest y).mpr (Or.inr hc), hcol⟩
              · rintro (h | ⟨y, hc, hcol⟩)
                · exact Or.inl h
                · rcases (foldCand_cons height width nb rest y).mp hc with
                    ⟨_, hy⟩ | hc'
                  · rw [← hy] at hcol
                    rw [he] at hcol
                    exact absurd hcol (by simp)
                  · exact Or.inr ⟨y, hc', hcol⟩
          · have hstep : exploreCellStep height width b acc nb =
                (acc.1, acc.2.1,
                  acc.2.2.1 || decide (b nb.1.toNat nb.2.toNat = some Player.B),
                  acc.2.2.2 || decide (b nb.1.toNat nb.2.toNat = some Player.W)) := by
              simp [exploreCellStep, hb, hv, he]
            rw [hstep]
            obtain ⟨p1, p2, p3⟩ := ih
              (acc.1, acc.2.1,
                acc.2.2.1 || decide (b nb.1.toNat nb.2.toNat = some Player.B),
                acc.2.2.2 || decide (b nb.1.toNat nb.2.toNat = some Player.W)) hvis
            refine ⟨p1, ?_, ?_⟩
            · rw [p2]
              simp only [Bool.or_eq_true, decide_eq_true_eq]
              constructor
              · rintro ((h | h) | ⟨y, hc, hcol⟩)
                · exact Or.inl h
                · exact Or.inr ⟨((nb.1.toNat, nb.2.toNat) : Coord),
                    (foldCand_cons height width nb rest _).mpr (Or.inl ⟨hb, rfl⟩), h⟩
                · exact Or.inr ⟨y,
                    (foldCand_cons height width nb rest y).mpr (Or.inr hc), hcol⟩
              · rintro (h | ⟨y, hc, hcol⟩)
                · exact Or.inl (Or.inl h)
                · rcases (foldCand_cons height width nb rest y).mp hc with
                    ⟨_, hy⟩ | hc'
                  · rw [← hy] at hcol
                    exact Or.inl (Or.inr hcol)
                  · exact Or.inr ⟨y, hc', hcol⟩
            · rw [p3]
              simp only [Bool.or_eq_true, decide_eq_true_eq]
              constructor
              · rintro ((h | h) | ⟨y, hc, hcol⟩)
                · exact Or.inl h
                · exact Or.inr ⟨((nb.1.toNat, nb.2.toNat) : Coord),
                    (foldCand_cons height width nb rest _).mpr (Or.inl ⟨hb, rfl⟩), h⟩
                · exact Or.inr ⟨y,
                    (foldCand_cons height width nb rest y).mpr (Or.inr hc), hcol⟩
              · rintro (h | ⟨y, hc, hcol⟩)
                · exact Or.inl (Or.inl h)
                · rcases (foldCand_cons height width nb rest y).mp hc with
                    ⟨_, hy⟩ | hc'
                  · rw [← hy] at hcol
                    exact Or.inl (Or.inr hcol)
                  · exact Or.inr ⟨y, hc', hcol⟩
      · have hstep : exploreCellStep height width b acc nb = acc := by
          simp [exploreCellStep, hb]
        rw [hstep]
        obtain ⟨p1, p2, p3⟩ := ih acc hvis
        refine ⟨p1, ?_, ?_⟩
        · rw [p2]
          constructor
          · rintro (h | ⟨y, hc, hcol⟩)
            · exact Or.inl h
            · exact Or.inr ⟨y,
                (foldCand_cons height width nb rest y).mpr (Or.inr hc), hcol⟩
          · rintro (h | ⟨y, hc, hcol⟩)
            · exact Or.inl h
            · rcases (foldCand_cons height width nb rest y).mp hc with
                ⟨hb', _⟩ | hc'
              · exact absurd hb' hb
              · exact Or.inr ⟨y, hc', hcol⟩
        · rw [p3]
          constructor
          · rintro (h | ⟨y, hc, hcol⟩)
            · exact Or.inl h
            · exact Or.inr ⟨y,
                (foldCand_cons height width nb rest y).mpr (Or.inr hc), hcol⟩
          · rintro (h | ⟨y, hc, hcol⟩)
            · exact Or.inl h
            · rcases (foldCand_cons height width nb rest y).mp hc with
                ⟨hb', _⟩ | hc'
              · exact absurd hb' hb
              · exact Or.inr ⟨y, hc', hcol⟩

theorem gridCells_card (height width : Nat) :
    (gridCells height width).card = height * width := by
  simp [gridCells]

theorem exploreLoop_cons (height width : Nat) (b : Board) (fuel : Nat)
    (p : Coord) (rest region : List Coord) (visited : Finset Coord)
    (sawB sawW : Bool) :
    exploreLoop height width b (fuel + 1) (p :: rest) region visited sawB sawW =
      exploreLoop height width b fuel
        (exploreNbrStep height width b p (rest, visited, sawB, sawW)).1
        (region ++ [p])
        (exploreNbrStep height width b p (rest, visited, sawB, sawW)).2.1
        (exploreNbrStep height width b p (rest, visited, sawB, sawW)).2.2.1
        (exploreNbrStep height width b p (rest, visited, sawB, sawW)).2.2.2 := rfl

/-- The main loop invariant of `_explore_empty_region`: with enough fuel,
the loop returns exactly the maximal connected empty region of `start`,
without duplicates, the visited set extended by precisely that region,
and the two border flags telling whether the region borders a Black
(resp. White) stone. -/
theorem exploreLoop_correct (height width : Nat) (b : Board)
    (S : Finset Coord) (start : Coord)
    (hS_empty : ∀ v ∈ S, b v.1 v.2 = none)
    (hS_closed : ∀ v ∈ S, ∀ y, emptyStep height width b v y → y ∈ S)
    (hstart_empty : b start.1 start.2 = none)
    (hstart_grid : inGrid height width start)
    (hstart_not : start ∉ S) :
    ∀ (fuel : Nat) (queue region : List Coord) (visited : Finset Coord)
      (sawB sawW : Bool),
      visited = S ∪ (region ++ queue).toFinset →
      (region ++ queue).Nodup →
      (∀ x ∈ region ++ queue, reaches height width b start x) →
      (∀ x ∈ region, ∀ y, emptyStep height width b x y → y ∈ visited) →
      (sawB = true ↔ ∃ x ∈ region, ∃ y, inGrid height width y ∧
        adjCoord x y ∧ b y.1 y.2 = some Player.B) →
      (sawW = true ↔ ∃ x ∈ region, ∃ y, inGrid height width y ∧
        adjCoord x y ∧ b y.1 y.2 = some Player.W) →
      start ∈ region ++ queue →
      queue.length +
        (height * width - (visited ∩ gridCells height width).card) < fuel →
      (∀ x, x ∈ (exploreLoop height width b fuel queue region visited sawB sawW).1 ↔
        reaches height width b start x) ∧
      (exploreLoop height width b fuel queue region visited sawB sawW).1.Nodup ∧
      (exploreLoop height width b fuel queue region visited sawB sawW).2.2.2 =
        S ∪ (exploreLoop height width b fuel queue region visited sawB sawW).1.toFinset ∧
      ((exploreLoop height width b fuel queue region visited sawB sawW).2.1 = true ↔
        regionBorders height width b start Player.B) ∧
      ((exploreLoop height width b fuel queue region visited sawB sawW).2.2.1 = true ↔
        regionBorders height width b start Player.W) := by
  intro fuel
  induction fuel with
  | zero =>
      intro queue region visited sawB sawW _ _ _ _ _ _ _ hfuel
      exact absurd hfuel (Nat.not_lt_zero _)
  | succ n ih =>
      intro queue region visited sawB sawW i1 i2 i3 i4 i5 i6 i10 hfuel
      cases queue with
      | nil =>
          have hres : exploreLoop height width b (n + 1) [] region visited sawB sawW =
              (region, sawB, sawW, visited) := rfl
          rw [hres]
          have hSdis := closed_misses_region height width b S hS_closed start hstart_not
          rw [List.append_nil] at i1 i2 i3 i10
          have hc1 : ∀ x, x ∈ region ↔ reaches height width b start x := by
            intro x
            constructor
            · exact i3 x
            · intro hreach
              induction hreach with
              | refl => exact i10
              | tail h1 h2 ihp =>
                  have hmid := ihp
                  rename_i mid z
                  have hz : z ∈ visited := i4 _ hmid _ h2
                  rw [i1] at hz
                  rcases Finset.mem_union.mp hz with hz | hz
                  · exact absurd hz (hSdis _ (Relation.ReflTransGen.tail h1 h2))
                  · exact List.mem_toFinset.mp hz
          refine ⟨hc1, i2, by rw [i1], ?_, ?_⟩
          · rw [i5]
            constructor
            · rintro ⟨x, hx, y, hy1, hy2, hy3⟩
              exact ⟨x, y, (hc1 x).mp hx, hy1, hy2, hy3⟩
            · rintro ⟨q, x, hq, hx1, hx2, hx3⟩
              exact ⟨q, (hc1 q).mpr hq, x, hx1, hx2, hx3⟩
          · rw [i6]
            constructor
            · rintro ⟨x, hx, y, hy1, hy2, hy3⟩
              exact ⟨x, y, (hc1 x).mp hx, hy1, hy2, hy3⟩
            · rintro ⟨q, x, hq, hx1, hx2, hx3⟩
              exact ⟨q, (hc1 q).mpr hq, x, hx1, hx2, hx3⟩
      | cons p rest =>
          rw [exploreLoop_cons]
          simp only [exploreNbrStep]
          have hvis0 : ∀ v ∈ visited, b v.1 v.2 = none := by
            intro v hv
            rw [i1] at hv
            rcases Finset.mem_union.mp hv with hv | hv
            · exact hS_empty v hv
            · exact (reaches_props height width b start v hstart_empty
                hstart_grid (i3 v (List.mem_toFinset.mp hv))).2
          have hpmem : p ∈ region ++ p :: rest := by simp
          have hpreach : reaches height width b start p := i3 p hpmem
          have hpprops := reaches_props height width b start p hstart_empty
            hstart_grid hpreach
          obtain ⟨new, hq, hvst, hnodupnew, hnew⟩ :=
            exploreFold_struct height width b (nbrsInt p) (rest, visited, sawB, sawW)
          obtain ⟨hvis1, hflagB, hflagW⟩ :=
            exploreFold_flags height width b (nbrsInt p) (rest, visited, sawB, sawW)
              hvis0
          have hnew_grid : ∀ q ∈ new, q ∈ gridCells height width := by
            intro q hqm
            exact (mem_gridCells height width q).mpr
              (foldCand_inGrid height width (nbrsInt p) q (hnew q hqm).2.2)
          have hnew_fresh : ∀ q ∈ new, q ∉ visited := fun q hqm => (hnew q hqm).1
          -- the old visited contains everything enumerated so far
          have hold_sub : ((region ++ p :: rest).toFinset : Finset Coord) ⊆ visited := by
            rw [i1]
            exact Finset.subset_union_right
          -- invariants for the recursive call
          have i1' : visited ∪ new.toFinset =
              S ∪ (((region ++ [p]) ++ (rest ++ new)).toFinset : Finset Coord) := by
            rw [i1]
            ext x
            simp only [Finset.mem_union, List.mem_toFinset, List.mem_append,
              List.mem_cons, List.mem_singleton, List.not_mem_nil, or_false,
              or_assoc]
          have i2' : ((region ++ [p]) ++ (rest ++ new)).Nodup := by
            rw [← List.append_assoc]
            rw [List.nodup_append]
            refine ⟨?_, hnodupnew, ?_⟩
            · have : (region ++ [p]) ++ rest = region ++ p :: rest := by simp
              rw [this]
              exact i2
            · intro a ha hanew
              have : a ∈ visited := by
                apply hold_sub
                rw [List.mem_toFinset]
                have : (region ++ [p]) ++ rest = region ++ p :: rest := by simp
                rw [← this]
                exact ha
              exact (hnew a hanew).1 this
          have i3' : ∀ x ∈ (region ++ [p]) ++ (rest ++ new),
              reaches height width b start x := by
            intro x hx
            rcases List.mem_append.mp hx with hx | hx
            · rcases List.mem_append.mp hx with hx | hx
              · exact i3 x (List.mem_append.mpr (Or.inl hx))
              · rw [List.mem_singleton.mp hx]
                exact hpreach
            · rcases List.mem_append.mp hx with hx | hx
              · exact i3 x (by simp [hx])
              · obtain ⟨_, hxe, hxc⟩ := hnew x hx
                obtain ⟨hxg, hxadj⟩ := (foldCand_nbrsInt height width p x).mp hxc
                exact Relation.ReflTransGen.tail hpreach
                  ⟨hpprops.1, hxg, hpprops.2, hxe, hxadj⟩
          have i4' : ∀ x ∈ region ++ [p], ∀ y, emptyStep height width b x y →
              y ∈ visited ∪ new.toFinset := by
            intro x hx y hstep
            rcases List.mem_append.mp hx with hx | hx
            · exact Finset.mem_union_left _ (i4 x hx y hstep)
            · rw [List.mem_singleton.mp hx] at hstep
              have hyc : foldCand height width (nbrsInt p) y :=
                (foldCand_nbrsInt height width p y).mpr ⟨hstep.2.1, hstep.2.2.2.2⟩
              have := exploreFold_complete height width b (nbrsInt p)
                (rest, visited, sawB, sawW) y hyc hstep.2.2.2.1
              rw [hvst] at this
              exact this
          have i5' : (List.foldl (exploreCellStep height width b)
                (rest, visited, sawB, sawW) (nbrsInt p)).2.2.1 = true ↔
              ∃ x ∈ region ++ [p], ∃ y, inGrid height width y ∧ adjCoord x y ∧
                b y.1 y.2 = some Player.B := by
            rw [hflagB]
            constructor
            · rintro (h | ⟨y, hyc, hycol⟩)
              · obtain ⟨x, hx, y, hy⟩ := i5.mp h
                exact ⟨x, by simp [hx], y, hy⟩
              · obtain ⟨hyg, hyadj⟩ := (foldCand_nbrsInt height width p y).mp hyc
                exact ⟨p, by simp, y, hyg, hyadj, hycol⟩
            · rintro ⟨x, hx, y, hy1, hy2, hy3⟩
              rcases List.mem_append.mp hx with hx | hx
              · exact Or.inl (i5.mpr ⟨x, hx, y, hy1, hy2, hy3⟩)
              · rw [List.mem_singleton.mp hx] at hy2
                exact Or.inr ⟨y,
                  (foldCand_nbrsInt height width p y).mpr ⟨hy1, hy2⟩, hy3⟩
          have i6' : (List.foldl (exploreCellStep height width b)
                (rest, visited, sawB, sawW) (nbrsInt p)).2.2.2 = true ↔
              ∃ x ∈ region ++ [p], ∃ y, inGrid height width y ∧ adjCoord x y ∧
                b y.1 y.2 = some Player.W := by
            rw [hflagW]
            constructor
            · rintro (h | ⟨y, hyc, hycol⟩)
              · obtain ⟨x, hx, y, hy⟩ := i6.mp h
                exact ⟨x, by simp [hx], y, hy⟩
              · obtain ⟨hyg, hyadj⟩ := (foldCand_nbrsInt height width p y).mp hyc
                exact ⟨p, by simp, y, hyg, hyadj, hycol⟩
            · rintro ⟨x, hx, y, hy1, hy2, hy3⟩
              rcases List.mem_append.mp hx with hx | hx
              · exact Or.inl (i6.mpr ⟨x, hx, y, hy1, hy2, hy3⟩)
              · rw [List.mem_singleton.mp hx] at hy2
                exact Or.inr ⟨y,
                  (foldCand_nbrsInt height width p y).mpr ⟨hy1, hy2⟩, hy3⟩
          have i10' : start ∈ (region ++ [p]) ++ (rest ++ new) := by
            rcases List.mem_append.mp i10 with hs | hs
            · exact List.mem_append.mpr (Or.inl (List.mem_append.mpr (Or.inl hs)))
            · rcases List.mem_cons.mp hs with rfl | hs
              · exact List.mem_append.mpr (Or.inl (by simp))
              · exact List.mem_append.mpr (Or.inr (List.mem_append.mpr (Or.inl hs)))
          have hcard : ((visited ∪ new.toFinset) ∩ gridCells height width).card =
              (visited ∩ gridCells height width).card + new.length := by
            have hsub : new.toFinset ∩ gridCells height width = new.toFinset := by
              apply Finset.inter_eq_left.mpr
              intro q hqm
              exact hnew_grid q (List.mem_toFinset.mp hqm)
            rw [Finset.union_inter_distrib_right, hsub]
            rw [Finset.card_union_of_disjoint]
            · rw [List.toFinset_card_of_nodup hnodupnew]
            · rw [Finset.disjoint_right]
              intro q hqm hqv
              exact hnew_fresh q (List.mem_toFinset.mp hqm)
                (Finset.mem_inter.mp hqv).1
          have hcard_le : ((visited ∪ new.toFinset) ∩ gridCells height width).card ≤
              height * width := by
            calc ((visited ∪ new.toFinset) ∩ gridCells height width).card
                ≤ (gridCells height width).card :=
                  Finset.card_le_card Finset.inter_subset_right
              _ = height * width := gridCells_card height width
          have hfuel' : (rest ++ new).length +
              (height * width - ((visited ∪ new.toFinset) ∩
                gridCells height width).card) < n := by
            rw [List.length_append]
            rw [hcard]
            rw [hcard] at hcard_le
            simp only [List.length_cons] at hfuel
            omega
          have hres := ih (rest ++ new) (region ++ [p]) (visited ∪ new.toFinset)
            (List.foldl (exploreCellStep height width b)
              (rest, visited, sawB, sawW) (nbrsInt p)).2.2.1
            (List.foldl (exploreCellStep height width b)
              (rest, visited, sawB, sawW) (nbrsInt p)).2.2.2
            i1' i2' i3' i4' i5' i6' i10' hfuel'
          rw [hq, hvst]
          exact hres

/-- Correctness of `_explore_empty_region`: started on an unvisited empty
in-bounds cell, with a visited set holding only empty cells and closed
under empty-adjacency, it returns exactly the maximal connected empty
region of the start, duplicate-free, the visited set grown by that
region, and the two flags reporting the bordering colours. -/
theorem exploreEmptyRegion_correct (height width : Nat) (b : Board)
    (S : Finset Coord) (start : Coord)
    (hS_empty : ∀ v ∈ S, b v.1 v.2 = none)
    (hS_closed : ∀ v ∈ S, ∀ y, emptyStep height width b v y → y ∈ S)
    (hstart_empty : b start.1 start.2 = none)
    (hstart_grid : inGrid height width start)
    (hstart_not : start ∉ S) :
    (∀ x, x ∈ (exploreEmptyRegion height width b start.1 start.2 S).1 ↔
      reaches height width b start x) ∧
    (exploreEmptyRegion height width b start.1 start.2 S).1.Nodup ∧
    (exploreEmptyRegion height width b start.1 start.2 S).2.2.2 =
      S ∪ (exploreEmptyRegion height width b start.1 start.2 S).1.toFinset ∧
    ((exploreEmptyRegion height width b start.1 start.2 S).2.1 = true ↔
      regionBorders height width b start Player.B) ∧
    ((exploreEmptyRegion height width b start.1 start.2 S).2.2.1 = true ↔
      regionBorders height width b start Player.W) := by
  have hstart_mem : start ∈ insert start S ∩ gridCells height width := by
    rw [Finset.mem_inter]
    exact ⟨Finset.mem_insert_self _ _, (mem_gridCells height width start).mpr hstart_grid⟩
  have hcard1 : 1 ≤ ((insert start S ∩ gridCells height width)).card :=
    Finset.card_pos.mpr ⟨start, hstart_mem⟩
  have hcardle : ((insert start S ∩ gridCells height width)).card ≤ height * width := by
    calc ((insert start S ∩ gridCells height width)).card
        ≤ (gridCells height width).card :=
          Finset.card_le_card Finset.inter_subset_right
      _ = height * width := gridCells_card height width
  exact exploreLoop_correct height width b S start hS_empty hS_closed
    hstart_empty hstart_grid hstart_not (height * width + 1)
    [start] [] (insert start S) false false
    (by ext x; simp [or_comm])
    (by simp)
    (by
      intro x hx
      rw [List.nil_append, List.mem_singleton] at hx
      rw [hx]
      exact Relation.ReflTransGen.refl)
    (by intro x hx; exact absurd hx (List.not_mem_nil x))
    (by simp)
    (by simp)
    (by simp)
    (by simp only [List.length_singleton]; omega)

theorem ncard_filter_union_all (V R : Finset Coord) (P : Coord → Prop)
    (hdisj : ∀ q ∈ R, q ∉ V)
    (hall : ∀ q ∈ R, P q) :
    Set.ncard {q : Coord | q ∈ V ∪ R ∧ P q} =
      Set.ncard {q : Coord | q ∈ V ∧ P q} + R.card := by
  have hsplit : {q : Coord | q ∈ V ∪ R ∧ P q} =
      {q : Coord | q ∈ V ∧ P q} ∪ (↑R : Set Coord) := by
    ext q
    simp only [Set.mem_setOf_eq, Set.mem_union, Finset.mem_union, Finset.mem_coe]
    constructor
    · rintro ⟨hq | hq, hP⟩
      · exact Or.inl ⟨hq, hP⟩
      · exact Or.inr hq
    · rintro (⟨hq, hP⟩ | hq)
      · exact ⟨Or.inl hq, hP⟩
      · exact ⟨Or.inr hq, hall q hq⟩
  have hdisj' : Disjoint {q : Coord | q ∈ V ∧ P q} (↑R : Set Coord) := by
    rw [Set.disjoint_left]
    rintro q ⟨hqv, _⟩ hqr
    exact hdisj q (Finset.mem_coe.mp hqr) hqv
  rw [hsplit,
    Set.ncard_union_eq hdisj'
      ((Finset.finite_toSet V).subset (fun q hq => hq.1))
      (Finset.finite_toSet R),
    Set.ncard_coe_Finset]

theorem setOf_union_none (V R : Finset Coord) (P : Coord → Prop)
    (hnone : ∀ q ∈ R, ¬ P q) :
    {q : Coord | q ∈ V ∪ R ∧ P q} = {q : Coord | q ∈ V ∧ P q} := by
  ext q
  simp only [Set.mem_setOf_eq, Finset.mem_union]
  constructor
  · rintro ⟨hq | hq, hP⟩
    · exact ⟨hq, hP⟩
    · exact absurd hP (hnone q hq)
  · rintro ⟨hq, hP⟩
    exact ⟨Or.inl hq, hP⟩

/-- Unfolding of one scan step of `_computeTerritory`. -/
theorem territoryScan_cons (height width : Nat) (b : Board) (p : Coord)
    (rest : List Coord) (visited : Finset Coord) (bt wt : Nat) :
    territoryScan height width b (p :: rest) visited bt wt =
      if b p.1 p.2 = none ∧ p ∉ visited then
        (if (exploreEmptyRegion height width b p.1 p.2 visited).2.1 = true ∧
            (exploreEmptyRegion height width b p.1 p.2 visited).2.2.1 = false then
          territoryScan height width b rest
            (exploreEmptyRegion height width b p.1 p.2 visited).2.2.2
            (bt + (exploreEmptyRegion height width b p.1 p.2 visited).1.length) wt
        else if (exploreEmptyRegion height width b p.1 p.2 visited).2.2.1 = true ∧
            (exploreEmptyRegion height width b p.1 p.2 visited).2.1 = false then
          territoryScan height width b rest
            (exploreEmptyRegion height width b p.1 p.2 visited).2.2.2 bt
            (wt + (exploreEmptyRegion height width b p.1 p.2 visited).1.length)
        else
          territoryScan height width b rest
            (exploreEmptyRegion height width b p.1 p.2 visited).2.2.2 bt wt)
      else territoryScan height width b rest visited bt wt := rfl

/-- The scan invariant of `_computeTerritory`: the two accumulators count
exactly the already-visited cells whose region borders only the
respective colour; after all in-bounds cells have been scanned they equal
the two global territory counts. -/
theorem territoryScan_correct (height width : Nat) (b : Board) :
    ∀ (cells : List Coord) (visited : Finset Coord) (bt wt : Nat),
      (∀ p ∈ cells, inGrid height width p) →
      (∀ v ∈ visited, b v.1 v.2 = none ∧ inGrid height width v) →
      (∀ v ∈ visited, ∀ y, emptyStep height width b v y → y ∈ visited) →
      (∀ p : Coord, inGrid height width p → b p.1 p.2 = none →
        p ∈ cells ∨ p ∈ visited) →
      bt = Set.ncard {q : Coord | q ∈ visited ∧
        regionBorders height width b q Player.B ∧
        ¬ regionBorders height width b q Player.W} →
      wt = Set.ncard {q : Coord | q ∈ visited ∧
        regionBorders height width b q Player.W ∧
        ¬ regionBorders height width b q Player.B} →
      territoryScan height width b cells visited bt wt =
        (Set.ncard {p : Coord | territoryCell height width b Player.B p},
         Set.ncard {p : Coord | territoryCell height width b Player.W p}) := by
  intro cells
  induction cells with
  | nil =>
      intro visited bt wt _ hve hvc hcover hbt hwt
      have hvis_eq : ∀ q : Coord, q ∈ visited ↔
          inGrid height width q ∧ b q.1 q.2 = none := by
        intro q
        constructor
        · intro h
          exact ⟨(hve q h).2, (hve q h).1⟩
        · rintro ⟨hg, he⟩
          rcases hcover q hg he with h | h
          · exact absurd h (List.not_mem_nil q)
          · exact h
      have hsetB : {q : Coord | q ∈ visited ∧
          regionBorders height width b q Player.B ∧
          ¬ regionBorders height width b q Player.W} =
          {p : Coord | territoryCell height width b Player.B p} := by
        ext q
        simp only [Set.mem_setOf_eq, territoryCell, opponentOf]
        constructor
        · rintro ⟨hv, hB, hW⟩
          obtain ⟨hg, he⟩ := (hvis_eq q).mp hv
          exact ⟨hg, he, hB, hW⟩
        · rintro ⟨hg, he, hB, hW⟩
          exact ⟨(hvis_eq q).mpr ⟨hg, he⟩, hB, hW⟩
      have hsetW : {q : Coord | q ∈ visited ∧
          regionBorders height width b q Player.W ∧
          ¬ regionBorders height width b q Player.B} =
          {p : Coord | territoryCell height width b Player.W p} := by
        ext q
        simp only [Set.mem_setOf_eq, territoryCell, opponentOf]
        constructor
        · rintro ⟨hv, hW, hB⟩
          obtain ⟨hg, he⟩ := (hvis_eq q).mp hv
          exact ⟨hg, he, hW, hB⟩
        · rintro ⟨hg, he, hW, hB⟩
          exact ⟨(hvis_eq q).mpr ⟨hg, he⟩, hW, hB⟩
      show (bt, wt) = _
      rw [hbt, hwt, hsetB, hsetW]
  | cons p rest ih =>
      intro visited bt wt hcg hve hvc hcover hbt hwt
      rw [territoryScan_cons]
      by_cases h1 : b p.1 p.2 = none ∧ p ∉ visited
      · rw [if_pos h1]
        have hpg : inGrid height width p := hcg p (List.mem_cons_self p rest)
        obtain ⟨hreg, hnodup, hvis', hfB, hfW⟩ :=
          exploreEmptyRegion_correct height width b visited p
            (fun v hv => (hve v hv).1) hvc h1.1 hpg h1.2
        have hdisj : ∀ q ∈ (exploreEmptyRegion height width b p.1 p.2 visited).1.toFinset,
            q ∉ visited := by
          intro q hq
          exact closed_misses_region height width b visited hvc p h1.2 q
            ((hreg q).mp (List.mem_toFinset.mp hq))
        have hve' : ∀ v ∈ (exploreEmptyRegion height width b p.1 p.2 visited).2.2.2,
            b v.1 v.2 = none ∧ inGrid height width v := by
          intro v hv
          rw [hvis'] at hv
          rcases Finset.mem_union.mp hv with hv | hv
          · exact hve v hv
          · have := reaches_props height width b p v h1.1 hpg
              ((hreg v).mp (List.mem_toFinset.mp hv))
            exact ⟨this.2, this.1⟩
        have hvc' : ∀ v ∈ (exploreEmptyRegion height width b p.1 p.2 visited).2.2.2,
            ∀ y, emptyStep height width b v y →
              y ∈ (exploreEmptyRegion height width b p.1 p.2 visited).2.2.2 := by
          intro v hv y hstep
          rw [hvis'] at hv ⊢
          rcases Finset.mem_union.mp hv with hv | hv
          · exact Finset.mem_union_left _ (hvc v hv y hstep)
          · refine Finset.mem_union_right _ (List.mem_toFinset.mpr ?_)
            exact (hreg y).mpr
              (Relation.ReflTransGen.tail
                ((hreg v).mp (List.mem_toFinset.mp hv)) hstep)
        have hcover' : ∀ q : Coord, inGrid height width q → b q.1 q.2 = none →
            q ∈ rest ∨ q ∈ (exploreEmptyRegion height width b p.1 p.2 visited).2.2.2 := by
          intro q hg he
          rcases hcover q hg he with hq | hq
          · rcases List.mem_cons.mp hq with rfl | hq'
            · right
              rw [hvis']
              exact Finset.mem_union_right _
                (List.mem_toFinset.mpr ((hreg q).mpr Relation.ReflTransGen.refl))
            · left
              exact hq'
          · right
            rw [hvis']
            exact Finset.mem_union_left _ hq
        have hcg' : ∀ q ∈ rest, inGrid height width q :=
          fun q hq => hcg q (List.mem_cons_of_mem p hq)
        have hcongrB : ∀ q ∈ (exploreEmptyRegion height width b p.1 p.2 visited).1.toFinset,
            (regionBorders height width b q Player.B ↔
              regionBorders height width b p Player.B) := by
          intro q hq
          exact (regionBorders_congr height width b p q
            ((hreg q).mp (List.mem_toFinset.mp hq)) Player.B).symm
        have hcongrW : ∀ q ∈ (exploreEmptyRegion height width b p.1 p.2 visited).1.toFinset,
            (regionBorders height width b q Player.W ↔
              regionBorders height width b p Player.W) := by
          intro q hq
          exact (regionBorders_congr height width b p q
            ((hreg q).mp (List.mem_toFinset.mp hq)) Player.W).symm
        by_cases hBW : (exploreEmptyRegion height width b p.1 p.2 visited).2.1 = true ∧
            (exploreEmptyRegion height width b p.1 p.2 visited).2.2.1 = false
        · rw [if_pos hBW]
          have hpB : regionBorders height width b p Player.B := hfB.mp hBW.1
          have hpW : ¬ regionBorders height width b p Player.W := by
            intro h
            have := hfW.mpr h
            rw [hBW.2] at this
            exact Bool.false_ne_true this
          have hallB : ∀ q ∈ (exploreEmptyRegion height width b p.1 p.2 visited).1.toFinset,
              regionBorders height width b q Player.B ∧
              ¬ regionBorders height width b q Player.W := by
            intro q hq
            exact ⟨(hcongrB q hq).mpr hpB, fun h => hpW ((hcongrW q hq).mp h)⟩
          have hnoneW : ∀ q ∈ (exploreEmptyRegion height width b p.1 p.2 visited).1.toFinset,
              ¬ (regionBorders height width b q Player.W ∧
                ¬ regionBorders height width b q Player.B) := by
            intro q hq h
            exact hpW ((hcongrW q hq).mp h.1)
          have hbt' : bt + (exploreEmptyRegion height width b p.1 p.2 visited).1.length =
              Set.ncard {q : Coord |
                q ∈ (exploreEmptyRegion height width b p.1 p.2 visited).2.2.2 ∧
                regionBorders height width b q Player.B ∧
                ¬ regionBorders height width b q Player.W} := by
            rw [hvis', hbt, ← List.toFinset_card_of_nodup hnodup]
            exact (ncard_filter_union_all visited
              (exploreEmptyRegion height width b p.1 p.2 visited).1.toFinset
              (fun q => regionBorders height width b q Player.B ∧
                ¬ regionBorders height width b q Player.W) hdisj hallB).symm
          have hwt' : wt =
              Set.ncard {q : Coord |
                q ∈ (exploreEmptyRegion height width b p.1 p.2 visited).2.2.2 ∧
                regionBorders height width b q Player.W ∧
                ¬ regionBorders height width b q Player.B} := by
            rw [hvis']
            exact hwt.trans (congrArg Set.ncard
              (setOf_union_none visited
                (exploreEmptyRegion height width b p.1 p.2 visited).1.toFinset
                (fun q => regionBorders height width b q Player.W ∧
                  ¬ regionBorders height width b q Player.B) hnoneW).symm)
          exact ih _ _ _ hcg' hve' hvc' hcover' hbt' hwt'
        · rw [if_neg hBW]
          by_cases hWB : (exploreEmptyRegion height width b p.1 p.2 visited).2.2.1 = true ∧
              (exploreEmptyRegion height width b p.1 p.2 visited).2.1 = false
          · rw [if_pos hWB]
            have hpW : regionBorders height width b p Player.W := hfW.mp hWB.1
            have hpB : ¬ regionBorders height width b p Player.B := by
              intro h
              have := hfB.mpr h
              rw [hWB.2] at this
              exact Bool.false_ne_true this
            have hallW : ∀ q ∈ (exploreEmptyRegion height width b p.1 p.2 visited).1.toFinset,
                regionBorders height width b q Player.W ∧
                ¬ regionBorders height width b q Player.B := by
              intro q hq
              exact ⟨(hcongrW q hq).mpr hpW, fun h => hpB ((hcongrB q hq).mp h)⟩
            have hnoneB : ∀ q ∈ (exploreEmptyRegion height width b p.1 p.2 visited).1.toFinset,
                ¬ (regionBorders height width b q Player.B ∧
                  ¬ regionBorders height width b q Player.W) := by
              intro q hq h
              exact hpB ((hcongrB q hq).mp h.1)
            have hwt' : wt + (exploreEmptyRegion height width b p.1 p.2 visited).1.length =
                Set.ncard {q : Coord |
                  q ∈ (exploreEmptyRegion height width b p.1 p.2 visited).2.2.2 ∧
                  regionBorders height width b q Player.W ∧
                  ¬ regionBorders height width b q Player.B} := by
              rw [hvis', hwt, ← List.toFinset_card_of_nodup hnodup]
              exact (ncard_filter_union_all visited
                (exploreEmptyRegion height width b p.1 p.2 visited).1.toFinset
                (fun q => regionBorders height width b q Player.W ∧
                  ¬ regionBorders height width b q Player.B) hdisj hallW).symm
            have hbt' : bt =
                Set.ncard {q : Coord |
                  q ∈ (exploreEmptyRegion height width b p.1 p.2 visited).2.2.2 ∧
                  regionBorders height width b q Player.B ∧
                  ¬ regionBorders height width b q Player.W} := by
              rw [hvis']
              exact hbt.trans (congrArg Set.ncard
                (setOf_union_none visited
                  (exploreEmptyRegion height width b p.1 p.2 visited).1.toFinset
                  (fun q => regionBorders height width b q Player.B ∧
                    ¬ regionBorders height width b q Player.W) hnoneB).symm)
            exact ih _ _ _ hcg' hve' hvc' hcover' hbt' hwt'
          · rw [if_neg hWB]
            have hpnB : ¬ (regionBorders height width b p Player.B ∧
                ¬ regionBorders height width b p Player.W) := by
              rintro ⟨hB, hW⟩
              have hEB := hfB.mpr hB
              have hEW : (exploreEmptyRegion height width b p.1 p.2 visited).2.2.1 = false := by
                cases hE : (exploreEmptyRegion height width b p.1 p.2 visited).2.2.1
                · rfl
                · exact absurd (hfW.mp hE) hW
              exact hBW ⟨hEB, hEW⟩
            have hpnW : ¬ (regionBorders height width b p Player.W ∧
                ¬ regionBorders height width b p Player.B) := by
              rintro ⟨hW, hB⟩
              have hEW := hfW.mpr hW
              have hEB : (exploreEmptyRegion height width b p.1 p.2 visited).2.1 = false := by
                cases hE : (exploreEmptyRegion height width b p.1 p.2 visited).2.1
                · rfl
                · exact absurd (hfB.mp hE) hB
              exact hWB ⟨hEW, hEB⟩
            have hnoneB : ∀ q ∈ (exploreEmptyRegion height width b p.1 p.2 visited).1.toFinset,
                ¬ (regionBorders height width b q Player.B ∧
                  ¬ regionBorders height width b q Player.W) := by
              rintro q hq ⟨hB, hW⟩
              exact hpnB ⟨(hcongrB q hq).mp hB, fun h => hW ((hcongrW q hq).mpr h)⟩
            have hnoneW : ∀ q ∈ (exploreEmptyRegion height width b p.1 p.2 visited).1.toFinset,
                ¬ (regionBorders height width b q Player.W ∧
                  ¬ regionBorders height width b q Player.B) := by
              rintro q hq ⟨hW, hB⟩
              exact hpnW ⟨(hcongrW q hq).mp hW, fun h => hB ((hcongrB q hq).mpr h)⟩
            have hbt' : bt =
                Set.ncard {q : Coord |
                  q ∈ (exploreEmptyRegion height width b p.1 p.2 visited).2.2.2 ∧
                  regionBorders height width b q Player.B ∧
                  ¬ regionBorders height width b q Player.W} := by
              rw [hvis']
              exact hbt.trans (congrArg Set.ncard
                (setOf_union_none visited
                  (exploreEmptyRegion height width b p.1 p.2 visited).1.toFinset
                  (fun q => regionBorders height width b q Player.B ∧
                    ¬ regionBorders height width b q Player.W) hnoneB).symm)
            have hwt' : wt =
                Set.ncard {q : Coord |
                  q ∈ (exploreEmptyRegion height width b p.1 p.2 visited).2.2.2 ∧
                  regionBorders height width b q Player.W ∧
                  ¬ regionBorders height width b q Player.B} := by
              rw [hvis']
              exact hwt.trans (congrArg Set.ncard
                (setOf_union_none visited
                  (exploreEmptyRegion height width b p.1 p.2 visited).1.toFinset
                  (fun q => regionBorders height width b q Player.W ∧
                    ¬ regionBorders height width b q Player.B) hnoneW).symm)
            exact ih _ _ _ hcg' hve' hvc' hcover' hbt' hwt'
      · rw [if_neg h1]
        have hcover' : ∀ q : Coord, inGrid height width q → b q.1 q.2 = none →
            q ∈ rest ∨ q ∈ visited := by
          intro q hg he
          rcases hcover q hg he with hq | hq
          · rcases List.mem_cons.mp hq with rfl | hq'
            · right
              by_contra hpn
              exact h1 ⟨he, hpn⟩
            · left
              exact hq'
          · right
            exact hq
        exact ih _ _ _ (fun q hq => hcg q (List.mem_cons_of_mem p hq))
          hve hvc hcover' hbt hwt

theorem mem_cellList (height width : Nat) (p : Coord) :
    p ∈ cellList height width ↔ inGrid height width p := by
  cases p with
  | mk r c =>
      simp [cellList, inGrid, List.mem_flatMap]

/-- The pure core of `_computeTerritory` computes, for each colour, the
number of empty cells lying in maximal 4-connected empty regions
bordered by that colour alone. -/
theorem computeTerritoryPair_correct (height width : Nat) (b : Board) :
    computeTerritoryPair height width b =
      (Set.ncard {p : Coord | territoryCell height width b Player.B p},
       Set.ncard {p : Coord | territoryCell height width b Player.W p}) := by
  unfold computeTerritoryPair
  apply territoryScan_correct
  · intro p hp
    exact (mem_cellList height width p).mp hp
  · intro v hv
    exact absurd hv (Finset.not_mem_empty v)
  · intro v hv _ _
    exact absurd hv (Finset.not_mem_empty v)
  · intro p hg _
    exact Or.inl ((mem_cellList height width p).mpr hg)
  · have : {q : Coord | q ∈ (∅ : Finset Coord) ∧
        regionBorders height width b q Player.B ∧
        ¬ regionBorders height width b q Player.W} = ∅ := by
      ext q
      simp
    rw [this, Set.ncard_empty]
  · have : {q : Coord | q ∈ (∅ : Finset Coord) ∧
        regionBorders height width b q Player.W ∧
        ¬ regionBorders height width b q Player.B} = ∅ := by
      ext q
      simp
    rw [this, Set.ncard_empty]

/-- Claim C7: `_computeTerritory` flood-fills every maximal 4-connected
region of empty cells; an empty cell counts toward a colour's territory
total exactly when its region borders a stone of that colour and none of
the other colour, so a region of size N bordered by one colour alone
contributes N to that colour and 0 to the other, while a region bordered
by both colours or by no stones contributes to neither; the two totals
are stored in the state and emitted. -/
theorem claim_C7_computeTerritory_correct (s : GameState) :
    computeTerritory s =
      ({ s with
          blackTerritory := Set.ncard {p : Coord |
            territoryCell s.height s.width s.boardArray Player.B p},
          whiteTerritory := Set.ncard {p : Coord |
            territoryCell s.height s.width s.boardArray Player.W p} },
       [Event.territoryUpdated
          (Set.ncard {p : Coord |
            territoryCell s.height s.width s.boardArray Player.B p})
          (Set.ncard {p : Coord |
            territoryCell s.height s.width s.boardArray Player.W p})]) := by
  unfold computeTerritory
  rw [computeTerritoryPair_correct]
